import Mathlib

/-!
Verification of the sarvam document-conversion / text-insight service.

The repository is Python glue code: a Flask service (flask_app.py) that
dispatches uploaded files to the docling conversion library and serializes
the result, plus a TextProcessor (textprocessor.py) that wraps an
OpenAI-compatible chat-completion backend.  This development shallowly
embeds that code: Python strings are lists of characters, the external
conversion library and chat backend are oracle function parameters, and
each endpoint returns its response together with the trace of backend
calls it performed.
-/

namespace Sarvam

/-- Python strings, modelled as lists of characters. -/
abbrev PyStr := List Char

/-- Python `str.lower()`.  Lean's `Char.toLower` lowers exactly the ASCII
range, which agrees with Python on every character that could make an
extension match one of the ASCII-only supported sets below. -/
def pyLower (s : PyStr) : PyStr := s.map Char.toLower

/-- The characters Python `str.strip()` removes with no argument: the full
Unicode whitespace set of CPython (`Py_UNICODE_ISSPACE`, the set accepted by
`str.isspace`): U+0009-U+000D and U+0020 (ASCII whitespace), U+001C-U+001F
(the information separators), U+0085 (next line), U+00A0 (no-break space),
U+1680 (Ogham space mark), U+2000-U+200A (fixed-width spaces), U+2028 and
U+2029 (line and paragraph separators), U+202F (narrow no-break space),
U+205F (medium mathematical space) and U+3000 (ideographic space). -/
def isPySpace (c : Char) : Bool :=
  (0x09 ≤ c.toNat && c.toNat ≤ 0x0D) || c.toNat = 0x20
  || (0x1C ≤ c.toNat && c.toNat ≤ 0x1F) || c.toNat = 0x85 || c.toNat = 0xA0
  || c.toNat = 0x1680 || (0x2000 ≤ c.toNat && c.toNat ≤ 0x200A)
  || c.toNat = 0x2028 || c.toNat = 0x2029 || c.toNat = 0x202F
  || c.toNat = 0x205F || c.toNat = 0x3000

/-- Python `str.strip()` with no argument: drop whitespace from both ends. -/
def pyStrip (s : PyStr) : PyStr :=
  ((s.dropWhile isPySpace).reverse.dropWhile isPySpace).reverse

/-- flask_app.py line 29: `AppConfig.SUPPORTED_EXTENSIONS`. -/
def SUPPORTED_EXTENSIONS : List PyStr :=
  ["pdf", "docx", "html", "htm", "pptx",
   "png", "jpg", "jpeg", "asciidoc", "md"].map String.toList

/-- flask_app.py line 33: `AppConfig.OUTPUT_FORMATS`. -/
def OUTPUT_FORMATS : List PyStr :=
  ["markdown", "json", "yaml"].map String.toList

/-- The part of `s` after the last dot: `s.rsplit(".", 1)[-1]`. -/
def lastDotSegment (s : PyStr) : PyStr :=
  ((s.reverse.takeWhile (fun c => c ≠ '.')).reverse)

/-- flask_app.py line 156:
`ext = filename.rsplit(".", 1)[-1].lower() if "." in filename else ""`. -/
def extOf (s : PyStr) : PyStr :=
  if '.' ∈ s then pyLower (lastDotSegment s) else []

/-!
## Key-value trees

`PyVal` models the plain-data Python values that `document.export_to_dict()`
produces and that `json.dumps` / `yaml.safe_dump` consume: `None`, booleans,
integers, strings, lists and string-keyed dicts.  The list and dict spines
are separate mutual inductives so that all definitions and proofs below are
plain structural recursion.
-/

mutual
inductive PyVal : Type where
  | null : PyVal
  | bool (b : Bool) : PyVal
  | int (n : Int) : PyVal
  | str (s : PyStr) : PyVal
  | list (xs : PyValList) : PyVal
  | dict (kvs : PyKvList) : PyVal

inductive PyValList : Type where
  | nil : PyValList
  | cons (hd : PyVal) (tl : PyValList) : PyValList

inductive PyKvList : Type where
  | nil : PyKvList
  | cons (k : PyStr) (v : PyVal) (tl : PyKvList) : PyKvList
end

/-!
## Scalar rendering

`json.dumps` and `yaml.safe_dump` render the scalar leaves the same way in
this development: `None`/`null`, `True`/`true`, `False`/`false`, decimal
integers, and double-quoted strings with backslash escapes.  (PyYAML leaves
unambiguous strings unquoted; always quoting is a round-trip-equivalent
abstraction of its quote-when-ambiguous rule.)
-/

/-- Decimal digits of a natural number, most significant first
(`repr(n)` for `n >= 0`). -/
def pyNatRepr (n : Nat) : PyStr :=
  if n = 0 then ['0'] else ((Nat.digits 10 n).map Nat.digitChar).reverse

/-- Python decimal rendering of an integer (`repr(n)`). -/
def pyIntRepr (n : Int) : PyStr :=
  if n < 0 then '-' :: pyNatRepr n.natAbs else pyNatRepr n.toNat

/-- Backslash-escape a character inside a double-quoted string literal.
The quote, the backslash and the ASCII control characters that can occur
in practice are escaped; every other character is emitted raw (an
`ensure_ascii=False`-style abstraction of the libraries' `\uXXXX`
escapes, which does not affect round-tripping). -/
def escChar (c : Char) : PyStr :=
  if c = '"' then ['\\', '"']
  else if c = '\\' then ['\\', '\\']
  else if c = '\n' then ['\\', 'n']
  else if c = '\t' then ['\\', 't']
  else if c = '\r' then ['\\', 'r']
  else [c]

/-- The body of a double-quoted string literal: the escaped characters
followed by the closing quote. -/
def strBody (s : PyStr) : PyStr := s.foldr (fun c acc => escChar c ++ acc) ['"']

/-- Double-quoted string literal with escapes. -/
def quoteStr (s : PyStr) : PyStr := '"' :: strBody s

/-- `i` spaces of indentation. -/
def indentS (i : Nat) : PyStr := List.replicate i ' '

/-!
## JSON encoding: `json.dumps(data, indent=2, default=str)`

With `indent=2` the Python encoder separates items with a comma, a newline
and the nesting indentation, puts `": "` after keys, and renders empty
containers inline.  `default=str` only affects values that are not already
plain data, so it is invisible on `PyVal`.  The nesting level `i` indents
item lines by `2*(i+1)` and the closing bracket by `2*i`, exactly as
`json.dumps` does.
-/

mutual
def jsonVal : PyVal → Nat → PyStr
  | .null, _ => "null".toList
  | .bool true, _ => "true".toList
  | .bool false, _ => "false".toList
  | .int n, _ => pyIntRepr n
  | .str s, _ => quoteStr s
  | .list .nil, _ => ['[', ']']
  | .list (.cons x xs), i =>
      '[' :: '\n' :: (jsonItems (.cons x xs) (i + 1) ++ '\n' :: (indentS (2 * i) ++ [']']))
  | .dict .nil, _ => ['\x7b', '\x7d']
  | .dict (.cons k v kvs), i =>
      '\x7b' :: '\n' :: (jsonKvs (.cons k v kvs) (i + 1) ++ '\n' :: (indentS (2 * i) ++ ['\x7d']))

def jsonItems : PyValList → Nat → PyStr
  | .nil, _ => []
  | .cons x .nil, j => indentS (2 * j) ++ jsonVal x j
  | .cons x (.cons y ys), j =>
      indentS (2 * j) ++ jsonVal x j ++ ',' :: '\n' :: jsonItems (.cons y ys) j

def jsonKvs : PyKvList → Nat → PyStr
  | .nil, _ => []
  | .cons k v .nil, j => indentS (2 * j) ++ quoteStr k ++ ':' :: ' ' :: jsonVal v j
  | .cons k v (.cons k2 v2 kvs), j =>
      indentS (2 * j) ++ quoteStr k ++ ':' :: ' ' :: jsonVal v j ++
        ',' :: '\n' :: jsonKvs (.cons k2 v2 kvs) j
end

/-- The text `json.dumps(data, indent=2, default=str)` produces. -/
def jsonDumps (v : PyVal) : PyStr := jsonVal v 0

/-!
## JSON decoding: `json.loads`

A fueled recursive-descent parser over the character list.  The fuel only
bounds nesting work; `jsonLoads` passes more fuel than any input can need.
-/

/-- The whitespace `json.dumps(indent=2)` emits (spaces, newlines). -/
def isJsonWs (c : Char) : Bool := c = ' ' || c = '\n'

/-- Skip whitespace. -/
def skipWs : PyStr → PyStr
  | [] => []
  | c :: rest => if isJsonWs c then skipWs rest else c :: rest

/-- Consume an expected literal. -/
def dropLit : PyStr → PyStr → Option PyStr
  | [], s => some s
  | _ :: _, [] => none
  | c :: cs, d :: ds => if c = d then dropLit cs ds else none

/-- Inverse of `escChar` on the escape letter. -/
def unescChar (c : Char) : Option Char :=
  if c = '"' then some '"'
  else if c = '\\' then some '\\'
  else if c = 'n' then some '\n'
  else if c = 't' then some '\t'
  else if c = 'r' then some '\r'
  else none

/-- Parse a double-quoted string body (the opening quote already consumed),
returning the decoded string and the input after the closing quote. -/
def parseStrBody : PyStr → Option (PyStr × PyStr)
  | [] => none
  | c :: rest =>
    if c = '"' then some ([], rest)
    else if c = '\\' then
      match rest with
      | [] => none
      | e :: rest2 =>
        match unescChar e, parseStrBody rest2 with
        | some d, some (s, r) => some (d :: s, r)
        | _, _ => none
    else
      match parseStrBody rest with
      | some (s, r) => some (c :: s, r)
      | none => none

/-- Numeric value of a decimal digit character. -/
def charDigit (c : Char) : Nat := c.toNat - 48

/-- Value of a big-endian digit string. -/
def charsToNat (cs : PyStr) : Nat := cs.foldl (fun a c => 10 * a + charDigit c) 0

/-- Parse a maximal nonempty run of decimal digits. -/
def parseNatNum (s : PyStr) : Option (Nat × PyStr) :=
  let ds := s.takeWhile Char.isDigit
  if ds.isEmpty then none else some (charsToNat ds, s.dropWhile Char.isDigit)

mutual
def parseVal : Nat → PyStr → Option (PyVal × PyStr)
  | 0, _ => none
  | Nat.succ f, s =>
    match skipWs s with
    | [] => none
    | c :: r =>
      if c = 'n' then (dropLit "ull".toList r).map (fun r2 => (PyVal.null, r2))
      else if c = 't' then (dropLit "rue".toList r).map (fun r2 => (PyVal.bool true, r2))
      else if c = 'f' then (dropLit "alse".toList r).map (fun r2 => (PyVal.bool false, r2))
      else if c = '"' then (parseStrBody r).map (fun p => (PyVal.str p.1, p.2))
      else if c = '[' then
        match skipWs r with
        | [] => none
        | d :: r2 =>
          if d = ']' then some (PyVal.list .nil, r2)
          else (parseItems f r).map (fun p => (PyVal.list p.1, p.2))
      else if c = '\x7b' then
        match skipWs r with
        | [] => none
        | d :: r2 =>
          if d = '\x7d' then some (PyVal.dict .nil, r2)
          else (parseKvs f r).map (fun p => (PyVal.dict p.1, p.2))
      else if c = '-' then
        match parseNatNum r with
        | some (n, r2) => some (PyVal.int (-(n : Int)), r2)
        | none => none
      else
        match parseNatNum (c :: r) with
        | some (n, r2) => some (PyVal.int (n : Int), r2)
        | none => none

def parseItems : Nat → PyStr → Option (PyValList × PyStr)
  | 0, _ => none
  | Nat.succ f, s =>
    match parseVal f s with
    | none => none
    | some (v, r) =>
      match skipWs r with
      | [] => none
      | c :: r2 =>
        if c = ',' then
          match parseItems f r2 with
          | some (vs, r3) => some (.cons v vs, r3)
          | none => none
        else if c = ']' then some (.cons v .nil, r2)
        else none

def parseKvs : Nat → PyStr → Option (PyKvList × PyStr)
  | 0, _ => none
  | Nat.succ f, s =>
    match skipWs s with
    | [] => none
    | c :: r =>
      if c = '"' then
        match parseStrBody r with
        | none => none
        | some (k, r1) =>
          match r1 with
          | [] => none
          | d :: r2 =>
            if d = ':' then
              match parseVal f r2 with
              | none => none
              | some (v, r3) =>
                match skipWs r3 with
                | [] => none
                | e :: r4 =>
                  if e = ',' then
                    match parseKvs f r4 with
                    | some (kvs, r5) => some (.cons k v kvs, r5)
                    | none => none
                  else if e = '\x7d' then some (.cons k v .nil, r4)
                  else none
            else none
      else none
end

/-- The value `json.loads(text)` produces, `none` on a parse error or
trailing garbage. -/
def jsonLoads (s : PyStr) : Option PyVal :=
  match parseVal (s.length + 1) s with
  | some (v, r) => if skipWs r = [] then some v else none
  | none => none

/- Node counts, used only to discharge parser fuel. -/
mutual
def szV : PyVal → Nat
  | .null => 1
  | .bool _ => 1
  | .int _ => 1
  | .str _ => 1
  | .list xs => szL xs + 1
  | .dict kvs => szK kvs + 1

def szL : PyValList → Nat
  | .nil => 0
  | .cons x tl => szV x + szL tl + 1

def szK : PyKvList → Nat
  | .nil => 0
  | .cons _ v tl => szV v + szK tl + 1
end

/-- Does the input not begin with a decimal digit?  (The guard under which
a rendered integer followed by this input parses back unchanged.) -/
def headNotDigit : PyStr → Bool
  | [] => true
  | c :: _ => !c.isDigit

/-!
## YAML encoding: `yaml.safe_dump(data, default_flow_style=False)`

Block style: one `key: value` or `- item` line per entry, nested blocks
indented two further spaces, empty containers inline.  The model abstracts
PyYAML in three round-trip-preserving ways, noted here for the record:
strings and keys are always double-quoted (PyYAML quotes only ambiguous
scalars), sequences get their own indentation step (PyYAML emits them
indentless and compacts `- key: value`), and keys keep insertion order
(PyYAML sorts them by default; Python dict equality — the structural
equality of the round-trip property — ignores key order, so the sort is
invisible to it).
-/

/-- The inline rendering of a scalar or empty container, `none` for the
nonempty containers that get their own block. -/
def yInlineOpt : PyVal → Option PyStr
  | .null => some ("null".toList)
  | .bool true => some ("true".toList)
  | .bool false => some ("false".toList)
  | .int n => some (pyIntRepr n)
  | .str s => some (quoteStr s)
  | .list .nil => some ['[', ']']
  | .dict .nil => some ['\x7b', '\x7d']
  | .list (.cons _ _) => none
  | .dict (.cons _ _ _) => none

mutual
def yBlockLines : PyVal → Nat → List PyStr
  | .list xs, i => yItemLines xs i
  | .dict kvs, i => yKvLines kvs i
  | v, i => [indentS i ++ (yInlineOpt v).getD []]

def yItemLines : PyValList → Nat → List PyStr
  | .nil, _ => []
  | .cons x tl, i =>
    match yInlineOpt x with
    | some t => (indentS i ++ '-' :: ' ' :: t) :: yItemLines tl i
    | none => (indentS i ++ ['-']) :: (yBlockLines x (i + 2) ++ yItemLines tl i)

def yKvLines : PyKvList → Nat → List PyStr
  | .nil, _ => []
  | .cons k v tl, i =>
    match yInlineOpt v with
    | some t => (indentS i ++ quoteStr k ++ ':' :: ' ' :: t) :: yKvLines tl i
    | none => (indentS i ++ quoteStr k ++ [':']) :: (yBlockLines v (i + 2) ++ yKvLines tl i)
end

/-- Join lines with a newline after each. -/
def unlines (ls : List PyStr) : PyStr := ls.foldr (fun l acc => l ++ '\n' :: acc) []

/-- The text `yaml.safe_dump(data, default_flow_style=False)` produces
(up to the abstractions noted above). -/
def yamlDump (v : PyVal) : PyStr :=
  match yInlineOpt v with
  | some t => unlines [t]
  | none => unlines (yBlockLines v 0)

/-!
## YAML decoding: `yaml.safe_load`

Split the document into lines, then parse the block structure by
indentation with a fueled recursive descent.
-/

/-- Split at newlines; a trailing newline yields a final empty segment. -/
def splitLines : PyStr → List PyStr
  | [] => [[]]
  | c :: rest =>
    if c = '\n' then [] :: splitLines rest
    else
      match splitLines rest with
      | l :: ls => (c :: l) :: ls
      | [] => [[c]]

/-- Lines of a document: drop the empty segment after the final newline. -/
def prepLines (s : PyStr) : List PyStr :=
  let ls := splitLines s
  if ls.getLast? = some [] then ls.dropLast else ls

/-- Width of a line's leading spaces. -/
def indentOf (l : PyStr) : Nat := (l.takeWhile (fun c => c = ' ')).length

/-- Strip exactly `i` leading spaces (the line must be indented exactly
that far). -/
def deIndent (i : Nat) (l : PyStr) : Option PyStr :=
  if indentOf l = i then some (l.drop i) else none

/-- Guard for the YAML block parsers: the lines that follow a block at
indentation `i` either end the document or dedent below `i`. -/
def linesGuard (i : Nat) (rest : List PyStr) : Prop :=
  rest = [] ∨ ∃ l ls, rest = l :: ls ∧ indentOf l < i

/-- Parse a whole-line inline scalar or empty container. -/
def parseYInline (s : PyStr) : Option PyVal :=
  if s = "null".toList then some .null
  else if s = "true".toList then some (.bool true)
  else if s = "false".toList then some (.bool false)
  else if s = ['[', ']'] then some (.list .nil)
  else if s = ['\x7b', '\x7d'] then some (.dict .nil)
  else
    match s with
    | [] => none
    | c :: r =>
      if c = '"' then
        match parseStrBody r with
        | some (k, []) => some (.str k)
        | _ => none
      else if c = '-' then
        match parseNatNum r with
        | some (n, []) => some (.int (-(n : Int)))
        | _ => none
      else
        match parseNatNum (c :: r) with
        | some (n, []) => some (.int (n : Int))
        | _ => none

mutual
def parseYBlock : Nat → Nat → List PyStr → Option (PyVal × List PyStr)
  | 0, _, _ => none
  | Nat.succ f, i, lines =>
    match lines with
    | [] => none
    | l :: _ =>
      match deIndent i l with
      | none => none
      | some [] => none
      | some (c :: _) =>
        if c = '-' then (parseYItems f i lines).map (fun p => (PyVal.list p.1, p.2))
        else if c = '"' then (parseYKvs f i lines).map (fun p => (PyVal.dict p.1, p.2))
        else none

def parseYItems : Nat → Nat → List PyStr → Option (PyValList × List PyStr)
  | 0, _, _ => none
  | Nat.succ f, i, lines =>
    match lines with
    | [] => none
    | l :: rest =>
      match deIndent i l with
      | none => none
      | some [] => none
      | some (c :: tail) =>
        if c = '-' then
          match
            (match tail with
             | [] => parseYBlock f (i + 2) rest
             | d :: t =>
               if d = ' ' then (parseYInline t).map (fun v => (v, rest))
               else none : Option (PyVal × List PyStr)) with
          | none => none
          | some (v, rest2) =>
            match rest2 with
            | [] => some (.cons v .nil, [])
            | l2 :: _ =>
              if indentOf l2 = i then
                (parseYItems f i rest2).map (fun p => (.cons v p.1, p.2))
              else some (.cons v .nil, rest2)
        else none

def parseYKvs : Nat → Nat → List PyStr → Option (PyKvList × List PyStr)
  | 0, _, _ => none
  | Nat.succ f, i, lines =>
    match lines with
    | [] => none
    | l :: rest =>
      match deIndent i l with
      | none => none
      | some [] => none
      | some (c :: kr) =>
        if c = '"' then
          match parseStrBody kr with
          | none => none
          | some (k, kr2) =>
            match kr2 with
            | [] => none
            | d :: tail =>
              if d = ':' then
                match
                  (match tail with
                   | [] => parseYBlock f (i + 2) rest
                   | e :: t =>
                     if e = ' ' then (parseYInline t).map (fun v => (v, rest))
                     else none : Option (PyVal × List PyStr)) with
                | none => none
                | some (v, rest2) =>
                  match rest2 with
                  | [] => some (.cons k v .nil, [])
                  | l2 :: _ =>
                    if indentOf l2 = i then
                      (parseYKvs f i rest2).map (fun p => (.cons k v p.1, p.2))
                    else some (.cons k v .nil, rest2)
              else none
        else none
end

/-- The value `yaml.safe_load(text)` produces on documents in this
encoding's image, `none` on a parse error. -/
def yamlLoads (s : PyStr) : Option PyVal :=
  let lines := prepLines s
  let inline : Option PyVal :=
    match lines with
    | [l] => parseYInline l
    | _ => none
  match inline with
  | some v => some v
  | none =>
    match parseYBlock (s.length + 1) 0 lines with
    | some (v, []) => some v
    | _ => none

/-!
## The conversion result and `format_output` (flask_app.py lines 101-116)

The docling document object is opaque to the orchestrator: the code only
calls its two export operations, so it is modelled as exactly those two
fields.
-/

structure DoclingDoc where
  export_to_markdown : PyStr
  export_to_dict : PyVal

structure ConvResult where
  document : DoclingDoc

inductive FormatError where
  | unsupported (fmt : PyStr)
deriving DecidableEq

/-- flask_app.py `format_output`: returns `(content, mimetype, extension)`
or raises `ValueError` for an unknown format tag. -/
def format_output (result : ConvResult) (output_format : PyStr) :
    Except FormatError (PyStr × PyStr × PyStr) :=
  let fmt := pyLower output_format
  if fmt = "markdown".toList then
    .ok (result.document.export_to_markdown, "text/markdown".toList, "md".toList)
  else if fmt = "json".toList then
    .ok (jsonDumps result.document.export_to_dict, "application/json".toList, "json".toList)
  else if fmt = "yaml".toList then
    .ok (yamlDump result.document.export_to_dict, "text/yaml".toList, "yaml".toList)
  else
    .error (.unsupported fmt)

/-!
## The TextProcessor (textprocessor.py)

The OpenAI-compatible chat backend is an oracle
`ChatRequest → Except message ChatResponse`; each operation returns its
outcome together with the list of requests it sent to the backend.
-/

structure ChatMessage where
  role : PyStr
  content : PyStr
deriving DecidableEq

structure ChatRequest where
  model : PyStr
  messages : List ChatMessage
  max_tokens : Int
  temperature : ℚ
deriving DecidableEq

structure ChatUsage where
  prompt_tokens : Int
  completion_tokens : Int
  total_tokens : Int
deriving DecidableEq

/-- The parts of the backend response the code reads:
`choices[0].message.content`, `model`, `usage`, `choices[0].finish_reason`. -/
structure ChatResponse where
  content : PyStr
  model : PyStr
  usage : ChatUsage
  finish_reason : PyStr
deriving DecidableEq

abbrev ChatBackend := ChatRequest → Except PyStr ChatResponse

structure TokensUsed where
  prompt : Int
  completion : Int
  total : Int
deriving DecidableEq

structure SummaryResult where
  summary : PyStr
  model : PyStr
  tokens_used : TokensUsed
  finish_reason : PyStr
deriving DecidableEq

structure KeyPointsResult where
  key_points : PyStr
  model : PyStr
  tokens_used : TokensUsed
deriving DecidableEq

structure AnalysisResult where
  result : PyStr
  model : PyStr
  tokens_used : TokensUsed
deriving DecidableEq

/-- The two failure modes of a TextProcessor operation:
`ValueError("Text content cannot be empty")` and the
`RuntimeError(f"Failed to ...: ...")` wrapper around a backend exception. -/
inductive TPError where
  | emptyInput : TPError
  | backendError (msg : PyStr) : TPError
deriving DecidableEq

/-- `TextProcessor.__init__` default `model`. -/
def defaultModel : PyStr := "docker.io/granite-4.0-nano:350M-BF16".toList

/-- textprocessor.py lines 68-72: the default summarization system prompt. -/
def summarizeSystemPrompt : PyStr :=
  ("You are a professional summarization assistant. " ++
   "Provide clear, concise, and accurate summaries of the given text. " ++
   "Capture the key points, main ideas, and important details.").toList

/-- textprocessor.py `TextProcessor.summarize` (lines 42-97). -/
def summarize (backend : ChatBackend) (model : PyStr) (text : PyStr)
    (max_tokens : Int := 500) (temperature : ℚ := 7/10)
    (custom_prompt : Option PyStr := none) :
    Except TPError SummaryResult × List ChatRequest :=
  if text.isEmpty || (pyStrip text).isEmpty then
    (.error .emptyInput, [])
  else
    let system_prompt := custom_prompt.getD summarizeSystemPrompt
    let req : ChatRequest :=
      { model := model,
        messages :=
          [⟨"system".toList, system_prompt⟩,
           ⟨"user".toList, "Please summarize the following text:\n\n".toList ++ text⟩],
        max_tokens := max_tokens,
        temperature := temperature }
    match backend req with
    | .ok response =>
        (.ok { summary := response.content,
               model := response.model,
               tokens_used :=
                 ⟨response.usage.prompt_tokens,
                  response.usage.completion_tokens,
                  response.usage.total_tokens⟩,
               finish_reason := response.finish_reason }, [req])
    | .error e =>
        (.error (.backendError ("Failed to generate summary: ".toList ++ e)), [req])

/-- textprocessor.py lines 116-119: the key-point system prompt,
parameterized by `num_points`. -/
def extractSystemPrompt (num_points : Int) : PyStr :=
  "Extract the ".toList ++ pyIntRepr num_points ++
    (" most important key points from the text. " ++
     "Return them as a numbered list. Be concise and specific.").toList

/-- textprocessor.py `TextProcessor.extract_key_points` (lines 99-143). -/
def extract_key_points (backend : ChatBackend) (model : PyStr) (text : PyStr)
    (num_points : Int := 5) (max_tokens : Int := 300) :
    Except TPError KeyPointsResult × List ChatRequest :=
  let req : ChatRequest :=
    { model := model,
      messages :=
        [⟨"system".toList, extractSystemPrompt num_points⟩,
         ⟨"user".toList, text⟩],
      max_tokens := max_tokens,
      temperature := 1/2 }
  match backend req with
  | .ok response =>
      (.ok { key_points := response.content,
             model := response.model,
             tokens_used :=
               ⟨response.usage.prompt_tokens,
                response.usage.completion_tokens,
                response.usage.total_tokens⟩ }, [req])
  | .error e =>
      (.error (.backendError ("Failed to extract key points: ".toList ++ e)), [req])

/-- textprocessor.py `TextProcessor.custom_analysis` (lines 145-186). -/
def custom_analysis (backend : ChatBackend) (model : PyStr)
    (text : PyStr) (instruction : PyStr)
    (max_tokens : Int := 1000) (temperature : ℚ := 7/10) :
    Except TPError AnalysisResult × List ChatRequest :=
  let req : ChatRequest :=
    { model := model,
      messages :=
        [⟨"system".toList, "You are a helpful text analysis assistant.".toList⟩,
         ⟨"user".toList, instruction ++ "\n\nText:\n".toList ++ text⟩],
      max_tokens := max_tokens,
      temperature := temperature }
  match backend req with
  | .ok response =>
      (.ok { result := response.content,
             model := response.model,
             tokens_used :=
               ⟨response.usage.prompt_tokens,
                response.usage.completion_tokens,
                response.usage.total_tokens⟩ }, [req])
  | .error e =>
      (.error (.backendError ("Failed to perform custom analysis: ".toList ++ e)), [req])

/-!
## Flask endpoints (flask_app.py)

The docling conversion library is an oracle
`file bytes → declared filename → OCR flag → Except message ConvResult`;
each endpoint returns its HTTP response together with the trace of
conversion-library calls (and chat-backend requests) it performed.
-/

structure UploadedFile where
  filename : PyStr
  content : List Nat
deriving DecidableEq

abbrev ConvBackend := List Nat → PyStr → Bool → Except PyStr ConvResult

/-- A `convert_document` invocation, as recorded in the trace. -/
structure ConvCall where
  file_bytes : List Nat
  filename : PyStr
  use_ocr : Bool
deriving DecidableEq

/-- An endpoint outcome: 200 with a typed body, 400, or 500. -/
inductive HttpResponse (α : Type) where
  | ok (body : α)
  | clientError (msg : PyStr)
  | serverError (msg : PyStr)
deriving DecidableEq

/-- `request.form.get("use_ocr", "true").lower() in ("true", "1", "yes")`. -/
def useOcrOf (v : Option PyStr) : Bool :=
  pyLower (v.getD "true".toList) ∈ ["true".toList, "1".toList, "yes".toList]

/-- `request.args.get("inline", "false").lower() in ("true", "1")`. -/
def inlineFlagOf (v : Option PyStr) : Bool :=
  pyLower (v.getD "false".toList) ∈ ["true".toList, "1".toList]

/-- `filename.rsplit(".", 1)[0]`: the part before the last dot (the whole
name when there is no dot). -/
def baseNameOf (s : PyStr) : PyStr :=
  if '.' ∈ s then ((s.reverse.dropWhile (fun c => c ≠ '.')).drop 1).reverse else s

structure ConvertRequest where
  file : Option UploadedFile
  output_format : Option PyStr
  use_ocr : Option PyStr
  inline : Option PyStr

inductive ConvertBody where
  | inlineJson (filename : PyStr) (format : PyStr) (content : PyStr)
  | download (download_name : PyStr) (mimetype : PyStr) (content : PyStr)
deriving DecidableEq

/-- flask_app.py `api_convert` (lines 136-192). -/
def api_convert (conv : ConvBackend) (req : ConvertRequest) :
    HttpResponse ConvertBody × List ConvCall :=
  match req.file with
  | none => (.clientError "No file provided".toList, [])
  | some uploaded =>
    if uploaded.filename = [] then (.clientError "Empty filename".toList, [])
    else
      let ext := extOf uploaded.filename
      if ext ∉ SUPPORTED_EXTENSIONS then
        (.clientError ("Unsupported file type: .".toList ++ ext), [])
      else
        let output_format := pyLower (req.output_format.getD "markdown".toList)
        if output_format ∉ OUTPUT_FORMATS then
          (.clientError ("Unsupported output format: ".toList ++ output_format), [])
        else
          let use_ocr := useOcrOf req.use_ocr
          let call : ConvCall := ⟨uploaded.content, uploaded.filename, use_ocr⟩
          match conv uploaded.content uploaded.filename use_ocr with
          | .error e => (.serverError e, [call])
          | .ok result =>
            match format_output result output_format with
            | .error (.unsupported f) =>
                (.serverError ("Unsupported output format: ".toList ++ f), [call])
            | .ok (content, mimetype, out_ext) =>
              let out_filename := baseNameOf uploaded.filename ++ '.' :: out_ext
              if inlineFlagOf req.inline then
                (.ok (.inlineJson out_filename output_format content), [call])
              else
                (.ok (.download out_filename mimetype content), [call])

structure BatchRequest where
  files : List UploadedFile
  output_format : Option PyStr
  use_ocr : Option PyStr

/-- One element of the batch `results` list. -/
inductive BatchEntry where
  | success (original_filename filename format content : PyStr)
  | failure (original_filename error : PyStr)
deriving DecidableEq

def BatchEntry.isSuccess : BatchEntry → Bool
  | .success _ _ _ _ => true
  | .failure _ _ => false

structure BatchBody where
  results : List BatchEntry
  total : Nat
deriving DecidableEq

/-- The `for uploaded in files` loop of `api_convert_batch`
(flask_app.py lines 217-248): empty filenames are skipped, an unsupported
extension or a raising conversion appends a failure entry, a successful
conversion appends a success entry. -/
def batchLoop (conv : ConvBackend) (output_format : PyStr) (use_ocr : Bool) :
    List UploadedFile → List BatchEntry × List ConvCall
  | [] => ([], [])
  | uploaded :: rest =>
    let tailRes := batchLoop conv output_format use_ocr rest
    if uploaded.filename = [] then tailRes
    else
      let ext := extOf uploaded.filename
      if ext ∉ SUPPORTED_EXTENSIONS then
        (.failure uploaded.filename ("Unsupported file type: .".toList ++ ext) :: tailRes.1,
         tailRes.2)
      else
        let call : ConvCall := ⟨uploaded.content, uploaded.filename, use_ocr⟩
        match conv uploaded.content uploaded.filename use_ocr with
        | .error e => (.failure uploaded.filename e :: tailRes.1, call :: tailRes.2)
        | .ok result =>
          match format_output result output_format with
          | .error (.unsupported f) =>
              (.failure uploaded.filename ("Unsupported output format: ".toList ++ f) :: tailRes.1,
               call :: tailRes.2)
          | .ok (content, _, out_ext) =>
              (.success uploaded.filename (baseNameOf uploaded.filename ++ '.' :: out_ext)
                 output_format content :: tailRes.1,
               call :: tailRes.2)

/-- flask_app.py `api_convert_batch` (lines 195-250). -/
def api_convert_batch (conv : ConvBackend) (req : BatchRequest) :
    HttpResponse BatchBody × List ConvCall :=
  if req.files.isEmpty || req.files.all (fun f => f.filename.isEmpty) then
    (.clientError "No files provided".toList, [])
  else
    let output_format := pyLower (req.output_format.getD "markdown".toList)
    if output_format ∉ OUTPUT_FORMATS then
      (.clientError ("Unsupported output format: ".toList ++ output_format), [])
    else
      let use_ocr := useOcrOf req.use_ocr
      let (results, calls) := batchLoop conv output_format use_ocr req.files
      (.ok { results := results, total := results.length }, calls)

structure AnalyzeRequest where
  file : Option UploadedFile
  instruction : Option PyStr
  use_ocr : Option PyStr
  max_tokens : Option Int

structure AnalyzeBody where
  filename : PyStr
  instruction : PyStr
  text_content : PyStr
  analysis : PyStr
  model : PyStr
  tokens_used : TokensUsed
deriving DecidableEq

/-- flask_app.py `api_analyze` (lines 428-488). -/
def api_analyze (conv : ConvBackend) (chat : ChatBackend) (req : AnalyzeRequest) :
    HttpResponse AnalyzeBody × List ConvCall × List ChatRequest :=
  match req.file with
  | none => (.clientError "No file provided".toList, [], [])
  | some uploaded =>
    match req.instruction with
    | none => (.clientError "Analysis instruction is required".toList, [], [])
    | some instruction =>
      if uploaded.filename = [] then (.clientError "Empty filename".toList, [], [])
      else
        let ext := extOf uploaded.filename
        if ext ∉ SUPPORTED_EXTENSIONS then
          (.clientError ("Unsupported file type: .".toList ++ ext), [], [])
        else
          let use_ocr := useOcrOf req.use_ocr
          let max_tokens := req.max_tokens.getD 1000
          let call : ConvCall := ⟨uploaded.content, uploaded.filename, use_ocr⟩
          match conv uploaded.content uploaded.filename use_ocr with
          | .error e => (.serverError e, [call], [])
          | .ok result =>
            match format_output result "markdown".toList with
            | .error (.unsupported f) =>
                (.serverError ("Unsupported output format: ".toList ++ f), [call], [])
            | .ok (text_content, _, _) =>
              let a := custom_analysis chat defaultModel text_content instruction max_tokens (7/10)
              match a.1 with
              | .ok analysis =>
                  (.ok { filename := uploaded.filename,
                         instruction := instruction,
                         text_content := text_content,
                         analysis := analysis.result,
                         model := analysis.model,
                         tokens_used := analysis.tokens_used }, [call], a.2)
              | .error .emptyInput =>
                  (.clientError ("Configuration error: Text content cannot be empty".toList),
                   [call], a.2)
              | .error (.backendError m) => (.serverError m, [call], a.2)

/-!
## The converter cache (flask_app.py lines 56-86)

`_converters` is a per-process dict keyed by the OCR flag, modelled as an
association list with Python-dict insertion (append on a missing key).
`get_converter` additionally reports whether it constructed a new
configuration.
-/

inductive InputFormat where
  | PDF | IMAGE | DOCX | HTML | PPTX | ASCIIDOC | MD
deriving DecidableEq

/-- The conversion configuration built by `get_converter`: its variable
part is the OCR flag inside the PDF pipeline options; the allow-list and
the table-structure toggle are fixed. -/
structure DocumentConverter where
  allowed_formats : List InputFormat
  pdf_do_ocr : Bool
  pdf_do_table_structure : Bool
deriving DecidableEq

/-- The `DocumentConverter(...)` construction of flask_app.py lines 61-85. -/
def mkDocumentConverter (use_ocr : Bool) : DocumentConverter :=
  { allowed_formats := [.PDF, .IMAGE, .DOCX, .HTML, .PPTX, .ASCIIDOC, .MD],
    pdf_do_ocr := use_ocr,
    pdf_do_table_structure := false }

abbrev ConvertersCache := List (Bool × DocumentConverter)

def cacheContains (cache : ConvertersCache) (k : Bool) : Bool :=
  cache.any (fun p => p.1 == k)

def cacheGet (cache : ConvertersCache) (k : Bool) : Option DocumentConverter :=
  (cache.find? (fun p => p.1 == k)).map Prod.snd

/-- flask_app.py `get_converter`: construct and store on a cache miss,
reuse on a hit.  The `Bool` result records whether a new configuration was
constructed. -/
def get_converter (cache : ConvertersCache) (use_ocr : Bool) :
    DocumentConverter × ConvertersCache × Bool :=
  if cacheContains cache use_ocr then
    ((cacheGet cache use_ocr).getD (mkDocumentConverter use_ocr), cache, false)
  else
    let c := mkDocumentConverter use_ocr
    (c, cache ++ [(use_ocr, c)], true)

/-- One observed `get_converter` call: the flag, the converter returned,
and whether the call constructed a new configuration. -/
structure RunStep where
  flag : Bool
  converter : DocumentConverter
  constructed : Bool
deriving DecidableEq

/-- Run a sequence of `get_converter` calls against the process cache. -/
def runGetConverters : ConvertersCache → List Bool → List RunStep × ConvertersCache
  | cache, [] => ([], cache)
  | cache, b :: bs =>
    let r := get_converter cache b
    let rest := runGetConverters r.2.1 bs
    (⟨b, r.1, r.2.2⟩ :: rest.1, rest.2)

/-- How many entries of the cache carry key `b`. -/
def cacheCountKey (cache : ConvertersCache) (b : Bool) : Nat :=
  (cache.filter (fun p => p.1 == b)).length

/-- What the batch loop appends for one non-skipped file. -/
def procEntry (conv : ConvBackend) (output_format : PyStr) (use_ocr : Bool)
    (uploaded : UploadedFile) : BatchEntry :=
  if extOf uploaded.filename ∉ SUPPORTED_EXTENSIONS then
    .failure uploaded.filename ("Unsupported file type: .".toList ++ extOf uploaded.filename)
  else
    match conv uploaded.content uploaded.filename use_ocr with
    | .error e => .failure uploaded.filename e
    | .ok result =>
      match format_output result output_format with
      | .error (.unsupported f) =>
          .failure uploaded.filename ("Unsupported output format: ".toList ++ f)
      | .ok (content, _, out_ext) =>
          .success uploaded.filename (baseNameOf uploaded.filename ++ '.' :: out_ext)
            output_format content

/-- A conversion backend that always fails (for instantiations). -/
def convErrStub : ConvBackend := fun _ _ _ => .error []

/-- A conversion backend that always returns a fixed small document. -/
def convOkStub : ConvBackend := fun _ _ _ => .ok ⟨⟨"# MD".toList, .dict .nil⟩⟩

/-- A chat backend that always fails (for instantiations). -/
def chatErrStub : ChatBackend := fun _ => .error []

/-- A conversion backend that raises exactly on the file named
`bad.pdf` (for instantiations). -/
def convOneBad : ConvBackend := fun _ name _ =>
  if name = "bad.pdf".toList then .error "boom".toList
  else .ok ⟨⟨"# MD".toList, .dict .nil⟩⟩

/-- A chat backend that always returns a fixed response. -/
def chatStubOf (resp : ChatResponse) : ChatBackend := fun _ => .ok resp

end Sarvam

namespace Sarvam

/-!
# Theorems

First some facts about blank text, then the claims in order.
-/

/-- The code's blankness test `not text or not text.strip()` holds exactly
when every character of the text is whitespace. -/
theorem pyBlank_iff (text : PyStr) :
    (text.isEmpty || (pyStrip text).isEmpty) = true ↔ ∀ c ∈ text, isPySpace c = true := by
  constructor
  · intro h c hc
    rcases Bool.or_eq_true_iff.mp h with h1 | h1
    · rw [List.isEmpty_iff] at h1; subst h1; simp at hc
    · rw [List.isEmpty_iff] at h1
      unfold pyStrip at h1
      rw [List.reverse_eq_nil_iff, List.dropWhile_eq_nil_iff] at h1
      have hall : ∀ d ∈ text.dropWhile isPySpace, isPySpace d = true := by
        intro d hd
        exact h1 d (by simpa using hd)
      have hsplit := List.takeWhile_append_dropWhile (p := isPySpace) (l := text)
      rw [← hsplit] at hc
      rcases List.mem_append.mp hc with h2 | h2
      · exact List.mem_takeWhile_imp h2
      · exact hall c h2
  · intro h
    have hd : text.dropWhile isPySpace = [] := List.dropWhile_eq_nil_iff.mpr h
    simp [pyStrip, hd, List.isEmpty_iff]

/-- C1 counterexample: the uploaded file whose filename is the empty
string has extension "" (not in the supported set), yet `api_convert`
rejects it with the distinct "Empty filename" client error, not the
unsupported-input-format error the claim requires for every such
filename. -/
theorem C1_empty_filename_refutes :
    extOf ([] : PyStr) ∉ SUPPORTED_EXTENSIONS
  ∧ (api_convert convErrStub ⟨some ⟨[], []⟩, none, none, none⟩).1 =
      .clientError "Empty filename".toList
  ∧ HttpResponse.clientError (α := ConvertBody) "Empty filename".toList ≠
      .clientError ("Unsupported file type: .".toList ++ extOf ([] : PyStr)) := by
  refine ⟨?_, ?_, ?_⟩
  · decide
  · rfl
  · decide

/-- C1 (amended: restricted to nonempty uploaded filenames, which the code
checks first): if the uploaded filename is nonempty and its lowercased
extension is not in the supported set, `api_convert` answers with the
unsupported-file-type client error and performs no conversion-library
call. -/
theorem C1_unsupported_extension_rejected (conv : ConvBackend) (req : ConvertRequest)
    (f : UploadedFile) (hf : req.file = some f) (hne : f.filename ≠ [])
    (hext : extOf f.filename ∉ SUPPORTED_EXTENSIONS) :
    (api_convert conv req).1 =
      .clientError ("Unsupported file type: .".toList ++ extOf f.filename)
  ∧ (api_convert conv req).2 = [] := by
  unfold api_convert
  rw [hf]
  dsimp only
  rw [if_neg hne, if_pos hext]
  exact ⟨rfl, rfl⟩

/-- C1 witness: a concrete unsupported upload `file.xyz`. -/
theorem C1_witness :
    (⟨"file.xyz".toList, []⟩ : UploadedFile).filename ≠ []
  ∧ extOf "file.xyz".toList ∉ SUPPORTED_EXTENSIONS
  ∧ (api_convert convErrStub ⟨some ⟨"file.xyz".toList, []⟩, none, none, none⟩).1 =
      .clientError ("Unsupported file type: .".toList ++ extOf "file.xyz".toList)
  ∧ (api_convert convErrStub ⟨some ⟨"file.xyz".toList, []⟩, none, none, none⟩).2 = [] := by
  refine ⟨by decide, by decide, ?_⟩
  exact C1_unsupported_extension_rejected convErrStub
    ⟨some ⟨"file.xyz".toList, []⟩, none, none, none⟩ ⟨"file.xyz".toList, []⟩
    rfl (by decide) (by decide)

/-- C3: for text that is empty or whitespace-only, `summarize` fails with
the empty-input error and the backend trace is empty (no chat-completion
call is made); for every non-blank text it never raises the empty-input
error. -/
theorem C3_summarize_empty_input (backend : ChatBackend) (model text : PyStr)
    (mt : Int) (temp : ℚ) (cp : Option PyStr) :
    ((∀ c ∈ text, isPySpace c = true) →
      summarize backend model text mt temp cp = (.error .emptyInput, []))
  ∧ ((¬ ∀ c ∈ text, isPySpace c = true) →
      (summarize backend model text mt temp cp).1 ≠ .error .emptyInput) := by
  constructor
  · intro h
    have hb : (text.isEmpty || (pyStrip text).isEmpty) = true := (pyBlank_iff text).mpr h
    simp [summarize, hb]
  · intro h
    have hb : (text.isEmpty || (pyStrip text).isEmpty) = false :=
      Bool.eq_false_iff.mpr (fun hc => h ((pyBlank_iff text).mp hc))
    unfold summarize
    rw [hb]
    simp only [Bool.false_eq_true, if_false]
    split <;> simp

/-- C3 witness: whitespace-only text (including the non-ASCII no-break
space U+00A0, which Python `str.strip()` also removes) is rejected with no
backend call, and a plain text is not. -/
theorem C3_witness :
    (∀ c ∈ " \u00A0\t\n".toList, isPySpace c = true)
  ∧ summarize chatErrStub defaultModel " \u00A0\t\n".toList = (.error .emptyInput, [])
  ∧ (¬ ∀ c ∈ "hi".toList, isPySpace c = true)
  ∧ (summarize chatErrStub defaultModel "hi".toList).1 ≠ .error .emptyInput := by
  refine ⟨by decide, ?_, by decide, ?_⟩
  · exact (C3_summarize_empty_input chatErrStub defaultModel " \u00A0\t\n".toList
      500 (7/10) none).1 (by decide)
  · exact (C3_summarize_empty_input chatErrStub defaultModel "hi".toList
      500 (7/10) none).2 (by decide)

/-- C4: for every non-blank text and every backend response, a successful
`summarize` returns exactly the record built from
`choices[0].message.content`, `response.model`, the usage triple copied
verbatim, and `choices[0].finish_reason` — and sends exactly the one
two-message request. -/
theorem C4_summarize_success (resp : ChatResponse) (model text : PyStr)
    (mt : Int) (temp : ℚ) (h : ¬ ∀ c ∈ text, isPySpace c = true) :
    summarize (chatStubOf resp) model text mt temp none =
      (.ok { summary := resp.content, model := resp.model,
             tokens_used := ⟨resp.usage.prompt_tokens, resp.usage.completion_tokens,
                             resp.usage.total_tokens⟩,
             finish_reason := resp.finish_reason },
       [{ model := model,
          messages := [⟨"system".toList, summarizeSystemPrompt⟩,
                       ⟨"user".toList, "Please summarize the following text:\n\n".toList ++ text⟩],
          max_tokens := mt, temperature := temp }]) := by
  have hb : (text.isEmpty || (pyStrip text).isEmpty) = false :=
    Bool.eq_false_iff.mpr (fun hc => h ((pyBlank_iff text).mp hc))
  unfold summarize
  rw [hb]
  rfl

/-- C4 witness: the claim's concrete stub
`{content: "SUMMARY", usage: 10/5/15, model: "m", finish_reason: "stop"}`
on input "hello world" yields exactly
`{summary: "SUMMARY", model: "m", tokens_used: 10/5/15, finish_reason: "stop"}`. -/
theorem C4_witness :
    (¬ ∀ c ∈ "hello world".toList, isPySpace c = true)
  ∧ (summarize (chatStubOf ⟨"SUMMARY".toList, "m".toList, ⟨10, 5, 15⟩, "stop".toList⟩)
       defaultModel "hello world".toList).1 =
      .ok { summary := "SUMMARY".toList, model := "m".toList,
            tokens_used := ⟨10, 5, 15⟩, finish_reason := "stop".toList } := by
  refine ⟨by decide, ?_⟩
  rw [(C4_summarize_success ⟨"SUMMARY".toList, "m".toList, ⟨10, 5, 15⟩, "stop".toList⟩
    defaultModel "hello world".toList 500 (7/10) (by decide))]

/-- C7: every `extract_key_points` call sends exactly one request: a
two-message prompt whose system message is the fixed instruction
parameterized by `num_points` and whose user message is the input text,
with temperature exactly 1/2 — and the defaults are `num_points = 5`,
`max_tokens = 300`. -/
theorem C7_extract_key_points_request (backend : ChatBackend) (model text : PyStr)
    (n mt : Int) :
    (extract_key_points backend model text n mt).2 =
      [{ model := model,
         messages := [⟨"system".toList, extractSystemPrompt n⟩, ⟨"user".toList, text⟩],
         max_tokens := mt, temperature := 1/2 }]
  ∧ extract_key_points backend model text = extract_key_points backend model text 5 300 := by
  refine ⟨?_, rfl⟩
  unfold extract_key_points
  dsimp only
  split <;> rfl

/-- C9 counterexample: a request with neither file nor instruction lacks
an instruction value, yet is rejected with the distinct "No file provided"
error, not the missing-instruction error the claim requires for every
instruction-less request. -/
theorem C9_no_file_refutes :
    (⟨none, none, none, none⟩ : AnalyzeRequest).instruction = none
  ∧ api_analyze convErrStub chatErrStub ⟨none, none, none, none⟩ =
      (.clientError "No file provided".toList, [], [])
  ∧ HttpResponse.clientError (α := AnalyzeBody) "No file provided".toList ≠
      .clientError "Analysis instruction is required".toList :=
  ⟨rfl, rfl, by decide⟩

/-- C9 (amended: restricted to requests that do supply a file part, which
the code checks first): a custom-analysis request without an instruction
value is rejected with the missing-instruction client error before any
conversion-library or chat-backend call. -/
theorem C9_missing_instruction_rejected (conv : ConvBackend) (chat : ChatBackend)
    (req : AnalyzeRequest) (f : UploadedFile)
    (hf : req.file = some f) (hi : req.instruction = none) :
    api_analyze conv chat req =
      (.clientError "Analysis instruction is required".toList, [], []) := by
  unfold api_analyze
  rw [hf, hi]

/-- C9 witness: a concrete file upload with no instruction field. -/
theorem C9_witness :
    (⟨some ⟨"doc.pdf".toList, [1, 2]⟩, none, none, none⟩ : AnalyzeRequest).file =
      some ⟨"doc.pdf".toList, [1, 2]⟩
  ∧ api_analyze convErrStub chatErrStub ⟨some ⟨"doc.pdf".toList, [1, 2]⟩, none, none, none⟩ =
      (.clientError "Analysis instruction is required".toList, [], []) :=
  ⟨rfl, C9_missing_instruction_rejected convErrStub chatErrStub
    ⟨some ⟨"doc.pdf".toList, [1, 2]⟩, none, none, none⟩ ⟨"doc.pdf".toList, [1, 2]⟩ rfl rfl⟩

/-- C10 counterexample: on blank text with instruction "Summarize",
`custom_analysis` sends a user message whose content is the
instruction-plus-template text, which is not the blank text itself, so
the claim's "with that blank text as the user-message content" fails for
`custom_analysis`. -/
theorem C10_template_refutes :
    (∀ c ∈ ([] : PyStr), isPySpace c = true)
  ∧ (custom_analysis chatErrStub defaultModel [] "Summarize".toList).2 =
      [{ model := defaultModel,
         messages := [⟨"system".toList, "You are a helpful text analysis assistant.".toList⟩,
                      ⟨"user".toList, "Summarize\n\nText:\n".toList⟩],
         max_tokens := 1000, temperature := 7/10 }]
  ∧ ("Summarize\n\nText:\n".toList : PyStr) ≠ ([] : PyStr) :=
  ⟨by simp, rfl, by decide⟩

/-- C10 (amended): neither `extract_key_points` nor `custom_analysis`
validates emptiness: on blank text each still issues exactly one backend
call and never raises the empty-input error; `extract_key_points` sends
the blank text itself as the user-message content, while
`custom_analysis` sends the instruction-plus-template text containing it. -/
theorem C10_blank_no_validation (backend : ChatBackend) (model text instruction : PyStr)
    (n mt mt2 : Int) (temp : ℚ) (_hb : ∀ c ∈ text, isPySpace c = true) :
    ((extract_key_points backend model text n mt).2 =
        [{ model := model,
           messages := [⟨"system".toList, extractSystemPrompt n⟩, ⟨"user".toList, text⟩],
           max_tokens := mt, temperature := 1/2 }]
      ∧ (extract_key_points backend model text n mt).1 ≠ .error .emptyInput)
  ∧ ((custom_analysis backend model text instruction mt2 temp).2 =
        [{ model := model,
           messages := [⟨"system".toList, "You are a helpful text analysis assistant.".toList⟩,
                        ⟨"user".toList, instruction ++ "\n\nText:\n".toList ++ text⟩],
           max_tokens := mt2, temperature := temp }]
      ∧ (custom_analysis backend model text instruction mt2 temp).1 ≠ .error .emptyInput) := by
  refine ⟨⟨?_, ?_⟩, ⟨?_, ?_⟩⟩
  · unfold extract_key_points; dsimp only; split <;> rfl
  · unfold extract_key_points; dsimp only; split <;> simp
  · unfold custom_analysis; dsimp only; split <;> rfl
  · unfold custom_analysis; dsimp only; split <;> simp

/-- C10 witness: the empty text with a concrete instruction. -/
theorem C10_witness :
    (∀ c ∈ ([] : PyStr), isPySpace c = true)
  ∧ (extract_key_points chatErrStub defaultModel []).2 =
      [{ model := defaultModel,
         messages := [⟨"system".toList, extractSystemPrompt 5⟩, ⟨"user".toList, []⟩],
         max_tokens := 300, temperature := 1/2 }]
  ∧ (custom_analysis chatErrStub defaultModel [] "Summarize".toList).1 ≠
      .error .emptyInput := by
  have h := C10_blank_no_validation chatErrStub defaultModel [] "Summarize".toList
    5 300 1000 (7/10) (by simp)
  exact ⟨by simp, h.1.1, h.2.2⟩

/-!
## C8: the converter cache
-/

theorem cacheGet_mk (cache : ConvertersCache) (b : Bool)
    (hmk : ∀ p ∈ cache, p.2 = mkDocumentConverter p.1)
    (hc : cacheContains cache b = true) :
    cacheGet cache b = some (mkDocumentConverter b) := by
  unfold cacheContains at hc
  rw [List.any_eq_true] at hc
  obtain ⟨p, hp, hpb⟩ := hc
  have hs : (cache.find? (fun q => q.1 == b)).isSome := by
    rw [List.find?_isSome]
    exact ⟨p, hp, hpb⟩
  obtain ⟨pr, hpr⟩ := Option.isSome_iff_exists.mp hs
  have hmem := List.mem_of_find?_eq_some hpr
  have hkey := List.find?_some hpr
  simp only [beq_iff_eq] at hkey
  unfold cacheGet
  rw [hpr]
  simp [hmk pr hmem, hkey]

theorem countKey_zero_of_not_contains (cache : ConvertersCache) (b : Bool)
    (hc : cacheContains cache b = false) : cacheCountKey cache b = 0 := by
  unfold cacheContains at hc
  unfold cacheCountKey
  rw [List.length_eq_zero, List.filter_eq_nil_iff]
  intro p hp
  rw [List.any_eq_false] at hc
  exact hc p hp

theorem cacheContains_append_one (cache : ConvertersCache) (b0 b : Bool)
    (c : DocumentConverter) :
    cacheContains (cache ++ [(b0, c)]) b = (cacheContains cache b || (b0 == b)) := by
  simp [cacheContains, List.any_append]

theorem countKey_append (c1 c2 : ConvertersCache) (b : Bool) :
    cacheCountKey (c1 ++ c2) b = cacheCountKey c1 b + cacheCountKey c2 b := by
  simp [cacheCountKey, List.filter_append]

theorem countKey_single_same (b : Bool) (c : DocumentConverter) :
    cacheCountKey [(b, c)] b = 1 := by
  simp [cacheCountKey]

theorem countKey_single_other (b0 b : Bool) (c : DocumentConverter) (h : b0 ≠ b) :
    cacheCountKey [(b0, c)] b = 0 := by
  simp [cacheCountKey, h]

/-- The cache invariant, threaded through a run of `get_converter` calls:
every returned converter is the (pure) construction at its flag, the cache
keeps mapping flags to their construction with at most one entry per key,
and at most one construction happens per flag (none if the starting cache
already held the flag). -/
theorem runGC_inv (flags : List Bool) : ∀ (cache : ConvertersCache),
    (∀ p ∈ cache, p.2 = mkDocumentConverter p.1) →
    (∀ b, cacheCountKey cache b ≤ 1) →
    (∀ st ∈ (runGetConverters cache flags).1, st.converter = mkDocumentConverter st.flag)
    ∧ (∀ p ∈ (runGetConverters cache flags).2, p.2 = mkDocumentConverter p.1)
    ∧ (∀ b, cacheCountKey (runGetConverters cache flags).2 b ≤ 1)
    ∧ (∀ b, ((runGetConverters cache flags).1.filter
         (fun st => st.flag == b && st.constructed)).length
         ≤ (if cacheContains cache b then 0 else 1)) := by
  induction flags with
  | nil =>
    intro cache hmk hcnt
    refine ⟨by simp [runGetConverters], hmk, hcnt, ?_⟩
    intro b
    simp only [runGetConverters, List.filter_nil, List.length_nil]
    split <;> omega
  | cons b0 bs ih =>
    intro cache hmk hcnt
    by_cases hc : cacheContains cache b0 = true
    · have hg : get_converter cache b0 = (mkDocumentConverter b0, cache, false) := by
        unfold get_converter
        rw [if_pos hc, cacheGet_mk cache b0 hmk hc]
        rfl
      obtain ⟨ih1, ih2, ih3, ih4⟩ := ih cache hmk hcnt
      refine ⟨?_, ?_, ?_, ?_⟩ <;> simp only [runGetConverters, hg]
      · intro st hst
        rcases List.mem_cons.mp hst with h | h
        · subst h; rfl
        · exact ih1 st h
      · exact ih2
      · exact ih3
      · intro b
        rw [List.filter_cons]
        simp only [Bool.and_false]
        exact le_trans (ih4 b) (le_refl _)
    · have hcf : cacheContains cache b0 = false := by
        rw [Bool.eq_false_iff]; exact hc
      have hg : get_converter cache b0 =
          (mkDocumentConverter b0, cache ++ [(b0, mkDocumentConverter b0)], true) := by
        unfold get_converter
        rw [if_neg (by rw [hcf]; exact Bool.false_ne_true)]
      have hmk2 : ∀ p ∈ cache ++ [(b0, mkDocumentConverter b0)],
          p.2 = mkDocumentConverter p.1 := by
        intro p hp
        rcases List.mem_append.mp hp with h | h
        · exact hmk p h
        · rcases List.mem_singleton.mp h with rfl; rfl
      have hcnt2 : ∀ b, cacheCountKey (cache ++ [(b0, mkDocumentConverter b0)]) b ≤ 1 := by
        intro b
        rw [countKey_append]
        by_cases hb : b0 = b
        · subst hb
          rw [countKey_zero_of_not_contains cache b0 hcf, countKey_single_same]
        · rw [countKey_single_other b0 b _ hb]
          have := hcnt b
          omega
      obtain ⟨ih1, ih2, ih3, ih4⟩ := ih (cache ++ [(b0, mkDocumentConverter b0)]) hmk2 hcnt2
      refine ⟨?_, ?_, ?_, ?_⟩ <;> simp only [runGetConverters, hg]
      · intro st hst
        rcases List.mem_cons.mp hst with h | h
        · subst h; rfl
        · exact ih1 st h
      · exact ih2
      · exact ih3
      · intro b
        have hrest := ih4 b
        rw [cacheContains_append_one] at hrest
        rw [List.filter_cons]
        by_cases hb : b0 = b
        · subst hb
          rw [hcf] at hrest
          simp only [Bool.false_or, beq_self_eq_true, eq_self_iff_true, if_true] at hrest
          have hcond : ((⟨b0, mkDocumentConverter b0, true⟩ : RunStep).flag == b0
              && (⟨b0, mkDocumentConverter b0, true⟩ : RunStep).constructed) = true := by
            simp
          rw [hcond]
          simp only [eq_self_iff_true, if_true, List.length_cons]
          rw [hcf]
          simp only [Bool.false_eq_true, if_false]
          omega
        · have hbb : (b0 == b) = false := by simp [hb]
          rw [hbb, Bool.or_false] at hrest
          have hcond : ((⟨b0, mkDocumentConverter b0, true⟩ : RunStep).flag == b
              && (⟨b0, mkDocumentConverter b0, true⟩ : RunStep).constructed) = false := by
            simp [hb]
          rw [hcond]
          simp only [Bool.false_eq_true, if_false]
          exact hrest

/-- C8: over any sequence of `get_converter` calls against an initially
empty cache, every call returns the converter that the first call with
its flag constructed (construction is pure, so all calls with the same
flag return the identical configuration object), at most one
construction happens per distinct flag value, and at no point does the
cache hold more than one entry per boolean key. -/
theorem C8_converter_cache (flags : List Bool) :
    (∀ st ∈ (runGetConverters [] flags).1, st.converter = mkDocumentConverter st.flag)
  ∧ (∀ b, ((runGetConverters [] flags).1.filter
       (fun st => st.flag == b && st.constructed)).length ≤ 1)
  ∧ (∀ p s, flags = p ++ s → ∀ b, cacheCountKey ((runGetConverters [] p).2) b ≤ 1) := by
  have base := runGC_inv flags [] (by simp) (by intro b; simp [cacheCountKey])
  refine ⟨base.1, ?_, ?_⟩
  · intro b
    refine le_trans (base.2.2.2 b) ?_
    split <;> omega
  · intro p s _ b
    exact (runGC_inv p [] (by simp) (by intro b2; simp [cacheCountKey])).2.2.1 b

/-- C8 witness: a concrete call sequence `[true, false, true]`. -/
theorem C8_witness :
    (∀ st ∈ (runGetConverters [] [true, false, true]).1,
      st.converter = mkDocumentConverter st.flag)
  ∧ cacheCountKey ((runGetConverters [] [true, false]).2) true ≤ 1 := by
  have h := C8_converter_cache [true, false, true]
  exact ⟨h.1, h.2.2 [true, false] [true] rfl true⟩

/-!
## C6: batch conversion with one malformed file
-/

theorem format_output_total (r : ConvResult) (fmt : PyStr) (h : fmt ∈ OUTPUT_FORMATS) :
    ∃ c mi e, format_output r fmt = .ok (c, mi, e) := by
  simp only [OUTPUT_FORMATS, List.map_cons, List.map_nil, List.mem_cons,
    List.not_mem_nil, or_false] at h
  rcases h with h | h | h <;> subst h
  · exact ⟨_, _, _, rfl⟩
  · exact ⟨_, _, _, rfl⟩
  · exact ⟨_, _, _, rfl⟩

/-- On files with nonempty names the batch loop produces exactly one
entry per file, namely `procEntry`. -/
theorem batchLoop_eq_map (conv : ConvBackend) (fmt : PyStr) (ocr : Bool) :
    ∀ files : List UploadedFile, (∀ f ∈ files, f.filename ≠ []) →
      (batchLoop conv fmt ocr files).1 = files.map (procEntry conv fmt ocr) := by
  intro files
  induction files with
  | nil => intro _; rfl
  | cons f fs ih =>
    intro h
    have hf : f.filename ≠ [] := h f (List.mem_cons_self f fs)
    have hrest := ih (fun g hg => h g (List.mem_cons_of_mem f hg))
    simp only [batchLoop, List.map_cons]
    rw [if_neg hf]
    by_cases hx : extOf f.filename ∉ SUPPORTED_EXTENSIONS
    · rw [if_pos hx]
      try dsimp only
      rw [hrest]
      unfold procEntry
      rw [if_pos hx]
    · rw [if_neg hx]
      try dsimp only
      cases hcv : conv f.content f.filename ocr with
      | error e =>
        try dsimp only
        rw [hrest]
        unfold procEntry
        rw [if_neg hx, hcv]
        try rfl
      | ok r =>
        cases hfo : format_output r fmt with
        | error fe =>
          cases fe with
          | unsupported g =>
            try dsimp only
            rw [hrest]
            unfold procEntry
            rw [if_neg hx, hcv]
            simp [hfo]
        | ok t =>
          obtain ⟨c, mi, e⟩ := t
          try dsimp only
          rw [hrest]
          unfold procEntry
          rw [if_neg hx, hcv]
          simp [hfo]

/-- A file whose extension is supported and whose conversion succeeds
yields a success entry. -/
theorem procEntry_success (conv : ConvBackend) (fmt : PyStr) (ocr : Bool)
    (f : UploadedFile) (hx : extOf f.filename ∈ SUPPORTED_EXTENSIONS)
    (hfmt : fmt ∈ OUTPUT_FORMATS) (r : ConvResult)
    (hcv : conv f.content f.filename ocr = .ok r) :
    (procEntry conv fmt ocr f).isSuccess = true := by
  unfold procEntry
  rw [if_neg (not_not_intro hx), hcv]
  obtain ⟨c, mi, e, hfo⟩ := format_output_total r fmt hfmt
  dsimp only
  rw [hfo]
  rfl

/-- A file whose extension is supported and whose conversion raises
yields a failure entry carrying the original message. -/
theorem procEntry_failure (conv : ConvBackend) (fmt : PyStr) (ocr : Bool)
    (f : UploadedFile) (hx : extOf f.filename ∈ SUPPORTED_EXTENSIONS)
    (m : PyStr) (hcv : conv f.content f.filename ocr = .error m) :
    procEntry conv fmt ocr f = .failure f.filename m := by
  unfold procEntry
  rw [if_neg (not_not_intro hx), hcv]

/-- C6: a batch of `pre ++ [fK] ++ post` files with nonempty names and
supported extensions, where the conversion library raises exactly on `fK`
with message `m` and succeeds on every other file, yields a 200 response
whose results list has one entry per file: the entry at `fK`'s position
is the only failure and carries `m`, and every other entry is a success
— the one failure does not abort the rest. -/
theorem C6_batch_single_failure (conv : ConvBackend) (pre post : List UploadedFile)
    (fK : UploadedFile) (fmtField ocr : Option PyStr) (m : PyStr)
    (hnames : ∀ f ∈ pre ++ fK :: post, f.filename ≠ [])
    (hexts : ∀ f ∈ pre ++ fK :: post, extOf f.filename ∈ SUPPORTED_EXTENSIONS)
    (hfmt : pyLower (fmtField.getD "markdown".toList) ∈ OUTPUT_FORMATS)
    (hfail : conv fK.content fK.filename (useOcrOf ocr) = .error m)
    (hok : ∀ f ∈ pre ++ post, ∃ r, conv f.content f.filename (useOcrOf ocr) = .ok r) :
    ∃ entries : List BatchEntry,
      (api_convert_batch conv ⟨pre ++ fK :: post, fmtField, ocr⟩).1 =
        .ok ⟨entries, entries.length⟩
      ∧ entries.length = (pre ++ fK :: post).length
      ∧ entries.get? pre.length = some (.failure fK.filename m)
      ∧ ∀ j, j < entries.length → j ≠ pre.length →
          ∃ en, entries.get? j = some en ∧ en.isSuccess = true := by
  set fmt := pyLower (fmtField.getD "markdown".toList) with hfmtdef
  set P := procEntry conv fmt (useOcrOf ocr) with hP
  have hKmem : fK ∈ pre ++ fK :: post := List.mem_append_right pre (List.mem_cons_self fK post)
  have hguard : ((pre ++ fK :: post).isEmpty
      || (pre ++ fK :: post).all (fun f => f.filename.isEmpty)) = false := by
    rw [Bool.or_eq_false_iff]
    constructor
    · rcases pre with _ | ⟨g, gs⟩ <;> simp [List.isEmpty]
    · rw [List.all_eq_false]
      refine ⟨fK, hKmem, ?_⟩
      have := hnames fK hKmem
      simpa [List.isEmpty_iff] using this
  have hloop := batchLoop_eq_map conv fmt (useOcrOf ocr) (pre ++ fK :: post) hnames
  have hresp : (api_convert_batch conv ⟨pre ++ fK :: post, fmtField, ocr⟩).1 =
      .ok ⟨(pre ++ fK :: post).map P, ((pre ++ fK :: post).map P).length⟩ := by
    unfold api_convert_batch
    rw [hguard]
    simp only [Bool.false_eq_true, if_false]
    rw [if_neg (not_not_intro hfmt)]
    simp only [← hfmtdef, hloop, hP]
  refine ⟨(pre ++ fK :: post).map P, hresp, by simp, ?_, ?_⟩
  · rw [List.map_append, List.map_cons]
    rw [List.get?_append_right (by simp)]
    simp only [List.length_map, Nat.sub_self, List.get?_cons_zero]
    rw [hP]
    exact congrArg some (procEntry_failure conv fmt (useOcrOf ocr) fK
      (hexts fK hKmem) m hfail)
  · intro j hj hjne
    rw [List.length_map] at hj
    have hsucc : ∀ f ∈ pre ++ post, (P f).isSuccess = true := by
      intro f hf
      obtain ⟨r, hr⟩ := hok f hf
      have hfx : f ∈ pre ++ fK :: post := by
        rcases List.mem_append.mp hf with h | h
        · exact List.mem_append_left _ h
        · exact List.mem_append_right _ (List.mem_cons_of_mem fK h)
      exact procEntry_success conv fmt (useOcrOf ocr) f (hexts f hfx) hfmt r hr
    rw [List.map_append, List.map_cons]
    by_cases hlt : j < pre.length
    · rw [List.get?_append (by simpa using hlt)]
      rw [List.get?_map, List.get?_eq_get hlt]
      refine ⟨P (pre.get ⟨j, hlt⟩), rfl, ?_⟩
      exact hsucc _ (List.mem_append_left post (pre.get_mem j hlt))
    · have hge : pre.length < j := by omega
      rw [List.get?_append_right (by simp; omega)]
      have hsub : j - (pre.map P).length = (j - pre.length - 1) + 1 := by
        simp only [List.length_map]; omega
      rw [hsub, List.get?_cons_succ]
      have hk : j - pre.length - 1 < post.length := by
        rw [List.length_append, List.length_cons] at hj
        omega
      rw [List.get?_map, List.get?_eq_get hk]
      refine ⟨P (post.get ⟨j - pre.length - 1, hk⟩), rfl, ?_⟩
      exact hsucc _ (List.mem_append_right pre (post.get_mem _ hk))

/-- C6 witness: three concrete files of which exactly the middle one
(`bad.pdf`) makes the conversion library raise. -/
theorem C6_witness :
    ∃ entries : List BatchEntry,
      (api_convert_batch convOneBad
        ⟨[⟨"a.pdf".toList, []⟩, ⟨"bad.pdf".toList, []⟩, ⟨"c.md".toList, []⟩],
         none, none⟩).1 = .ok ⟨entries, entries.length⟩
      ∧ entries.length = 3
      ∧ entries.get? 1 = some (.failure "bad.pdf".toList "boom".toList)
      ∧ ∀ j, j < entries.length → j ≠ 1 →
          ∃ en, entries.get? j = some en ∧ en.isSuccess = true := by
  have h := C6_batch_single_failure convOneBad
    [⟨"a.pdf".toList, []⟩] [⟨"c.md".toList, []⟩] ⟨"bad.pdf".toList, []⟩
    none none "boom".toList
    (by decide) (by decide) (by decide) rfl
    (by
      intro f hf
      simp only [List.cons_append, List.nil_append, List.mem_cons,
        List.not_mem_nil, or_false] at hf
      rcases hf with rfl | rfl
      · exact ⟨⟨⟨"# MD".toList, .dict .nil⟩⟩, rfl⟩
      · exact ⟨⟨⟨"# MD".toList, .dict .nil⟩⟩, rfl⟩)
  obtain ⟨entries, h1, h2, h3, h4⟩ := h
  refine ⟨entries, ?_, by simpa using h2, h3, h4⟩
  simpa using h1

/-!
## C5: JSON and YAML round-trips

The campaign: first facts about whitespace skipping, literals, string
bodies and digit strings; then the mutual parser-inverts-encoder theorems
for the JSON layer and the YAML layer; finally the round-trip theorem for
dict-rooted trees, which is what `document.export_to_dict()` produces.
-/

theorem skipWs_cons_ws (c : Char) (s : PyStr) (h : isJsonWs c = true) :
    skipWs (c :: s) = skipWs s := by
  simp [skipWs, h]

theorem skipWs_cons_not_ws (c : Char) (s : PyStr) (h : isJsonWs c = false) :
    skipWs (c :: s) = c :: s := by
  simp [skipWs, h]

theorem skipWs_append_ws (pre : PyStr) (s : PyStr)
    (h : ∀ c ∈ pre, isJsonWs c = true) : skipWs (pre ++ s) = skipWs s := by
  induction pre with
  | nil => rfl
  | cons c t ih =>
    rw [List.cons_append, skipWs_cons_ws c _ (h c (List.mem_cons_self c t))]
    exact ih (fun d hd => h d (List.mem_cons_of_mem c hd))

theorem skipWs_indent (n : Nat) (s : PyStr) : skipWs (indentS n ++ s) = skipWs s := by
  refine skipWs_append_ws _ s ?_
  intro c hc
  unfold indentS at hc
  rw [List.eq_of_mem_replicate hc]
  decide

theorem skipWs_nl (s : PyStr) : skipWs ('\n' :: s) = skipWs s :=
  skipWs_cons_ws '\n' s (by decide)

theorem dropLit_self (l r : PyStr) : dropLit l (l ++ r) = some r := by
  induction l with
  | nil => rfl
  | cons c t ih => simp [dropLit, ih]

theorem parseStrBody_cons_other (c : Char) (t : PyStr)
    (h1 : c ≠ '"') (h2 : c ≠ '\\') :
    parseStrBody (c :: t) =
      match parseStrBody t with
      | some (s, r) => some (c :: s, r)
      | none => none := by
  conv_lhs => unfold parseStrBody
  rw [if_neg h1, if_neg h2]

theorem parseStrBody_strBody (s : PyStr) : ∀ (rest : PyStr),
    parseStrBody (strBody s ++ rest) = some (s, rest) := by
  induction s with
  | nil =>
    intro rest
    show parseStrBody ('"' :: rest) = some ([], rest)
    unfold parseStrBody
    rw [if_pos rfl]
  | cons c t ih =>
    intro rest
    show parseStrBody ((escChar c ++ strBody t) ++ rest) = some (c :: t, rest)
    rw [List.append_assoc]
    by_cases h1 : c = '"'
    · subst h1; simp [escChar, parseStrBody, unescChar, ih rest]
    · by_cases h2 : c = '\\'
      · subst h2; simp [escChar, parseStrBody, unescChar, ih rest]
      · by_cases h3 : c = '\n'
        · subst h3; simp [escChar, parseStrBody, unescChar, ih rest]
        · by_cases h4 : c = '\t'
          · subst h4; simp [escChar, parseStrBody, unescChar, ih rest]
          · by_cases h5 : c = '\r'
            · subst h5; simp [escChar, parseStrBody, unescChar, ih rest]
            · rw [escChar, if_neg h1, if_neg h2, if_neg h3, if_neg h4, if_neg h5]
              rw [List.cons_append, List.nil_append,
                parseStrBody_cons_other c _ h1 h2, ih rest]

theorem quoteStr_append (s r : PyStr) :
    quoteStr s ++ r = '"' :: (strBody s ++ r) := by
  simp [quoteStr]

theorem digitChar_isDigit (d : Nat) (h : d < 10) : (Nat.digitChar d).isDigit = true := by
  interval_cases d <;> decide

theorem charDigit_digitChar (d : Nat) (h : d < 10) : charDigit (Nat.digitChar d) = d := by
  interval_cases d <;> decide

theorem pyNatRepr_ne_nil (n : Nat) : pyNatRepr n ≠ [] := by
  unfold pyNatRepr
  split
  · simp
  · rename_i h
    simp only [ne_eq, List.reverse_eq_nil_iff, List.map_eq_nil_iff]
    exact Nat.digits_ne_nil_iff_ne_zero.mpr h

theorem pyNatRepr_all_digits (n : Nat) : ∀ c ∈ pyNatRepr n, c.isDigit = true := by
  unfold pyNatRepr
  split
  · intro c hc; rw [List.mem_singleton.mp hc]; decide
  · intro c hc
    rw [List.mem_reverse, List.mem_map] at hc
    obtain ⟨d, hd, rfl⟩ := hc
    exact digitChar_isDigit d (Nat.digits_lt_base (by norm_num) hd)

theorem charsToNat_aux (ds : List Nat) : ∀ (a : Nat), (∀ d ∈ ds, d < 10) →
    List.foldl (fun acc c => 10 * acc + charDigit c) a ((ds.map Nat.digitChar).reverse) =
      a * 10 ^ ds.length + Nat.ofDigits 10 ds := by
  induction ds with
  | nil => intro a _; simp [Nat.ofDigits]
  | cons d ds ih =>
    intro a h
    rw [List.map_cons, List.reverse_cons, List.foldl_append]
    rw [ih a (fun e he => h e (List.mem_cons_of_mem d he))]
    simp only [List.foldl_cons, List.foldl_nil]
    rw [charDigit_digitChar d (h d (List.mem_cons_self d ds))]
    rw [Nat.ofDigits_cons, List.length_cons, pow_succ]
    ring

theorem charsToNat_pyNatRepr (n : Nat) : charsToNat (pyNatRepr n) = n := by
  unfold pyNatRepr charsToNat
  split
  · rename_i h; subst h; decide
  · rename_i h
    rw [charsToNat_aux (Nat.digits 10 n) 0
      (fun d hd => Nat.digits_lt_base (by norm_num) hd)]
    simp [Nat.ofDigits_digits]

theorem takeWhile_append_all (p : Char → Bool) (l r : PyStr)
    (h : ∀ c ∈ l, p c = true) : (l ++ r).takeWhile p = l ++ r.takeWhile p := by
  induction l with
  | nil => rfl
  | cons c t ih =>
    rw [List.cons_append, List.takeWhile_cons, h c (List.mem_cons_self c t)]
    rw [if_pos rfl, ih (fun d hd => h d (List.mem_cons_of_mem c hd))]
    rfl

theorem dropWhile_append_all (p : Char → Bool) (l r : PyStr)
    (h : ∀ c ∈ l, p c = true) : (l ++ r).dropWhile p = r.dropWhile p := by
  induction l with
  | nil => rfl
  | cons c t ih =>
    rw [List.cons_append, List.dropWhile_cons, h c (List.mem_cons_self c t)]
    rw [if_pos rfl]
    exact ih (fun d hd => h d (List.mem_cons_of_mem c hd))

theorem takeWhile_hnd (r : PyStr) (h : headNotDigit r = true) :
    r.takeWhile Char.isDigit = [] := by
  cases r with
  | nil => rfl
  | cons c t =>
    unfold headNotDigit at h
    rw [Bool.not_eq_true'] at h
    simp [List.takeWhile_cons, h]

theorem dropWhile_hnd (r : PyStr) (h : headNotDigit r = true) :
    r.dropWhile Char.isDigit = r := by
  cases r with
  | nil => rfl
  | cons c t =>
    unfold headNotDigit at h
    rw [Bool.not_eq_true'] at h
    simp [List.dropWhile_cons, h]

theorem parseNatNum_repr (n : Nat) (rest : PyStr) (h : headNotDigit rest = true) :
    parseNatNum (pyNatRepr n ++ rest) = some (n, rest) := by
  unfold parseNatNum
  rw [takeWhile_append_all Char.isDigit _ _ (pyNatRepr_all_digits n), takeWhile_hnd rest h]
  rw [dropWhile_append_all Char.isDigit _ _ (pyNatRepr_all_digits n), dropWhile_hnd rest h]
  rw [List.append_nil]
  rw [if_neg (by simp [List.isEmpty_iff, pyNatRepr_ne_nil n])]
  rw [charsToNat_pyNatRepr]

theorem digit_facts (c : Char) (h : c.isDigit = true) :
    c ≠ 'n' ∧ c ≠ 't' ∧ c ≠ 'f' ∧ c ≠ '"' ∧ c ≠ '[' ∧ c ≠ '\x7b' ∧ c ≠ '-'
    ∧ c ≠ ']' ∧ c ≠ '\x7d' ∧ isJsonWs c = false := by
  have hs : c ≠ ' ' := fun e => by subst e; exact absurd h (by decide)
  have hn : c ≠ '\n' := fun e => by subst e; exact absurd h (by decide)
  refine ⟨?_, ?_, ?_, ?_, ?_, ?_, ?_, ?_, ?_, by simp [isJsonWs, hs, hn]⟩ <;>
    exact fun e => by subst e; exact absurd h (by decide)

theorem isJsonWs_not_digit (c : Char) (h : isJsonWs c = true) : c.isDigit = false := by
  unfold isJsonWs at h
  rw [Bool.or_eq_true_iff] at h
  rcases h with h | h <;> rw [decide_eq_true_iff] at h <;> subst h <;> decide

theorem hnd_of_skipWs (s : PyStr) (c : Char) (t : PyStr)
    (hs : skipWs s = c :: t) (hc : c.isDigit = false) : headNotDigit s = true := by
  cases s with
  | nil => simp [skipWs] at hs
  | cons a s2 =>
    by_cases ha : isJsonWs a = true
    · simp [headNotDigit, isJsonWs_not_digit a ha]
    · rw [Bool.not_eq_true] at ha
      rw [skipWs_cons_not_ws a s2 ha] at hs
      rw [List.cons.injEq] at hs
      simp [headNotDigit, hs.1, hc]

theorem pyNatRepr_shape (m : Nat) :
    ∃ c t, pyNatRepr m = c :: t ∧ c.isDigit = true := by
  cases h : pyNatRepr m with
  | nil => exact absurd h (pyNatRepr_ne_nil m)
  | cons c t =>
    exact ⟨c, t, rfl, pyNatRepr_all_digits m c (by rw [h]; exact List.mem_cons_self c t)⟩

theorem jsonVal_head (v : PyVal) (i : Nat) :
    ∃ c t, jsonVal v i = c :: t ∧ c ≠ ']' ∧ c ≠ '\x7d' ∧ isJsonWs c = false := by
  cases v with
  | null => exact ⟨'n', "ull".toList, rfl, by decide, by decide, by decide⟩
  | bool b =>
    cases b with
    | true => exact ⟨'t', "rue".toList, rfl, by decide, by decide, by decide⟩
    | false => exact ⟨'f', "alse".toList, rfl, by decide, by decide, by decide⟩
  | int n =>
    show ∃ c t, pyIntRepr n = c :: t ∧ _
    unfold pyIntRepr
    split
    · exact ⟨'-', pyNatRepr n.natAbs, rfl, by decide, by decide, by decide⟩
    · obtain ⟨c, t, hct, hc⟩ := pyNatRepr_shape n.toNat
      obtain ⟨_, _, _, _, _, _, _, h8, h9, h10⟩ := digit_facts c hc
      exact ⟨c, t, hct, h8, h9, h10⟩
  | str s => exact ⟨'"', strBody s, rfl, by decide, by decide, by decide⟩
  | list xs =>
    cases xs with
    | nil => exact ⟨'[', [']'], rfl, by decide, by decide, by decide⟩
    | cons x tl => exact ⟨'[', _, rfl, by decide, by decide, by decide⟩
  | dict kvs =>
    cases kvs with
    | nil => exact ⟨'\x7b', ['\x7d'], rfl, by decide, by decide, by decide⟩
    | cons k v tl => exact ⟨'\x7b', _, rfl, by decide, by decide, by decide⟩

theorem parseVal_ws (f : Nat) (pre s : PyStr) (h : ∀ c ∈ pre, isJsonWs c = true) :
    parseVal f (pre ++ s) = parseVal f s := by
  cases f with
  | zero => rfl
  | succ f => simp only [parseVal]; rw [skipWs_append_ws pre s h]

theorem parseItems_ws (f : Nat) (pre s : PyStr) (h : ∀ c ∈ pre, isJsonWs c = true) :
    parseItems f (pre ++ s) = parseItems f s := by
  cases f with
  | zero => rfl
  | succ f => simp only [parseItems]; rw [parseVal_ws f pre s h]

theorem parseKvs_ws (f : Nat) (pre s : PyStr) (h : ∀ c ∈ pre, isJsonWs c = true) :
    parseKvs f (pre ++ s) = parseKvs f s := by
  cases f with
  | zero => rfl
  | succ f => simp only [parseKvs]; rw [skipWs_append_ws pre s h]

theorem indent_all_ws (n : Nat) : ∀ c ∈ indentS n, isJsonWs c = true := by
  intro c hc
  unfold indentS at hc
  rw [List.eq_of_mem_replicate hc]
  decide

theorem nl_all_ws : ∀ c ∈ ['\n'], isJsonWs c = true := by
  intro c hc
  rw [List.mem_singleton.mp hc]
  decide

theorem sp_all_ws : ∀ c ∈ [' '], isJsonWs c = true := by
  intro c hc
  rw [List.mem_singleton.mp hc]
  decide

theorem jsonItems_decomp (x : PyVal) (xs : PyValList) (j : Nat) :
    ∃ T, jsonItems (.cons x xs) j = indentS (2 * j) ++ (jsonVal x j ++ T) := by
  cases xs with
  | nil => exact ⟨[], by simp [jsonItems]⟩
  | cons y ys => exact ⟨',' :: '\n' :: jsonItems (.cons y ys) j, by simp [jsonItems]⟩

theorem jsonKvs_decomp (k : PyStr) (v : PyVal) (kvs : PyKvList) (j : Nat) :
    ∃ T, jsonKvs (.cons k v kvs) j =
      indentS (2 * j) ++ ('"' :: (strBody k ++ (':' :: ' ' :: (jsonVal v j ++ T)))) := by
  cases kvs with
  | nil =>
    refine ⟨[], ?_⟩
    show indentS (2 * j) ++ quoteStr k ++ ':' :: ' ' :: jsonVal v j = _
    rw [quoteStr, List.append_assoc]
    simp
  | cons k2 v2 kvs2 =>
    refine ⟨',' :: '\n' :: jsonKvs (.cons k2 v2 kvs2) j, ?_⟩
    show indentS (2 * j) ++ quoteStr k ++ ':' :: ' ' :: jsonVal v j ++
        ',' :: '\n' :: jsonKvs (.cons k2 v2 kvs2) j = _
    rw [quoteStr, List.append_assoc]
    simp

mutual

theorem parseVal_rt : ∀ (v : PyVal) (f i : Nat) (rest : PyStr),
    szV v ≤ f → headNotDigit rest = true →
    parseVal f (jsonVal v i ++ rest) = some (v, rest)
  | .null, f, i, rest, hf, _ => by
    cases f with
    | zero => simp [szV] at hf
    | succ f =>
      show parseVal (f + 1) ('n' :: ("ull".toList ++ rest)) = some (.null, rest)
      simp only [parseVal]
      rw [skipWs_cons_not_ws 'n' _ (by decide)]
      dsimp only
      rw [if_pos rfl, dropLit_self]
      rfl
  | .bool true, f, i, rest, hf, _ => by
    cases f with
    | zero => simp [szV] at hf
    | succ f =>
      show parseVal (f + 1) ('t' :: ("rue".toList ++ rest)) = some (.bool true, rest)
      simp only [parseVal]
      rw [skipWs_cons_not_ws 't' _ (by decide)]
      dsimp only
      rw [if_neg (by decide), if_pos rfl, dropLit_self]
      rfl
  | .bool false, f, i, rest, hf, _ => by
    cases f with
    | zero => simp [szV] at hf
    | succ f =>
      show parseVal (f + 1) ('f' :: ("alse".toList ++ rest)) = some (.bool false, rest)
      simp only [parseVal]
      rw [skipWs_cons_not_ws 'f' _ (by decide)]
      dsimp only
      rw [if_neg (by decide), if_neg (by decide), if_pos rfl, dropLit_self]
      rfl
  | .str s, f, i, rest, hf, _ => by
    cases f with
    | zero => simp [szV] at hf
    | succ f =>
      show parseVal (f + 1) ('"' :: (strBody s ++ rest)) = some (.str s, rest)
      simp only [parseVal]
      rw [skipWs_cons_not_ws '"' _ (by decide)]
      dsimp only
      rw [if_neg (by decide), if_neg (by decide), if_neg (by decide), if_pos rfl]
      rw [parseStrBody_strBody]
      rfl
  | .int n, f, i, rest, hf, hrest => by
    cases f with
    | zero => simp [szV] at hf
    | succ f =>
      show parseVal (f + 1) (pyIntRepr n ++ rest) = some (.int n, rest)
      unfold pyIntRepr
      split
      · rw [List.cons_append]
        simp only [parseVal]
        rw [skipWs_cons_not_ws '-' _ (by decide)]
        dsimp only
        rw [if_neg (by decide), if_neg (by decide), if_neg (by decide), if_neg (by decide),
            if_neg (by decide), if_neg (by decide), if_pos rfl]
        rw [parseNatNum_repr n.natAbs rest hrest]
        have he : -((n.natAbs : Nat) : Int) = n := by omega
        dsimp only
        rw [he]
      · obtain ⟨c, t, hct, hc⟩ := pyNatRepr_shape n.toNat
        obtain ⟨h1, h2, h3, h4, h5, h6, h7, _, _, h10⟩ := digit_facts c hc
        rw [hct, List.cons_append]
        simp only [parseVal]
        rw [skipWs_cons_not_ws c _ h10]
        dsimp only
        rw [if_neg h1, if_neg h2, if_neg h3, if_neg h4, if_neg h5, if_neg h6, if_neg h7]
        rw [← List.cons_append, ← hct]
        rw [parseNatNum_repr n.toNat rest hrest]
        have he : ((n.toNat : Nat) : Int) = n := by omega
        dsimp only
        rw [he]
  | .list .nil, f, i, rest, hf, _ => by
    cases f with
    | zero => simp [szV, szL] at hf
    | succ f =>
      show parseVal (f + 1) ('[' :: (']' :: rest)) = some (.list .nil, rest)
      simp only [parseVal]
      rw [skipWs_cons_not_ws '[' _ (by decide)]
      dsimp only
      rw [if_neg (by decide), if_neg (by decide), if_neg (by decide), if_neg (by decide),
          if_pos rfl]
      rw [skipWs_cons_not_ws ']' _ (by decide)]
      dsimp only
      rw [if_pos rfl]
  | .dict .nil, f, i, rest, hf, _ => by
    cases f with
    | zero => simp [szV, szK] at hf
    | succ f =>
      show parseVal (f + 1) ('\x7b' :: ('\x7d' :: rest)) = some (.dict .nil, rest)
      simp only [parseVal]
      rw [skipWs_cons_not_ws '\x7b' _ (by decide)]
      dsimp only
      rw [if_neg (by decide), if_neg (by decide), if_neg (by decide), if_neg (by decide),
          if_neg (by decide), if_pos rfl]
      rw [skipWs_cons_not_ws '\x7d' _ (by decide)]
      dsimp only
      rw [if_pos rfl]
  | .list (.cons x xs), f, i, rest, hf, _ => by
    cases f with
    | zero => simp [szV] at hf
    | succ f =>
      show parseVal (f + 1)
          ('[' :: '\n' ::
            ((jsonItems (.cons x xs) (i+1) ++ '\n' :: (indentS (2*i) ++ [']'])) ++ rest)) =
          some (.list (.cons x xs), rest)
      have hassoc : (jsonItems (.cons x xs) (i+1) ++ '\n' :: (indentS (2*i) ++ [']'])) ++ rest
          = jsonItems (.cons x xs) (i+1) ++ ('\n' :: (indentS (2*i) ++ (']' :: rest))) := by
        rw [List.append_assoc]
        simp
      rw [hassoc]
      simp only [parseVal]
      rw [skipWs_cons_not_ws '[' _ (by decide)]
      dsimp only
      rw [if_neg (by decide), if_neg (by decide), if_neg (by decide), if_neg (by decide),
          if_pos rfl]
      obtain ⟨T, hT⟩ := jsonItems_decomp x xs (i+1)
      obtain ⟨c0, t0, hc0, hne1, _, hws0⟩ := jsonVal_head x (i+1)
      have hskip : skipWs ('\n' ::
          (jsonItems (.cons x xs) (i+1) ++ ('\n' :: (indentS (2*i) ++ (']' :: rest)))))
          = c0 :: (t0 ++ (T ++ ('\n' :: (indentS (2*i) ++ (']' :: rest))))) := by
        rw [skipWs_nl, hT, List.append_assoc, skipWs_indent, List.append_assoc, hc0]
        rw [List.cons_append]
        exact skipWs_cons_not_ws c0 _ hws0
      rw [hskip]
      dsimp only
      rw [if_neg hne1]
      have hnl : ('\n' ::
          (jsonItems (.cons x xs) (i+1) ++ ('\n' :: (indentS (2*i) ++ (']' :: rest)))))
          = ['\n'] ++ (jsonItems (.cons x xs) (i+1)
              ++ ('\n' :: (indentS (2*i) ++ (']' :: rest)))) := rfl
      rw [hnl, parseItems_ws f _ _ nl_all_ws]
      rw [parseItems_rt (.cons x xs) (by simp) f (i+1)
        ('\n' :: (indentS (2*i) ++ (']' :: rest))) rest
        (by simp [szV] at hf; omega)
        (by rw [skipWs_nl, skipWs_indent]; exact skipWs_cons_not_ws ']' rest (by decide))]
      rfl
  | .dict (.cons k v kvs), f, i, rest, hf, _ => by
    cases f with
    | zero => simp [szV] at hf
    | succ f =>
      show parseVal (f + 1)
          ('\x7b' :: '\n' ::
            ((jsonKvs (.cons k v kvs) (i+1) ++ '\n' :: (indentS (2*i) ++ ['\x7d'])) ++ rest)) =
          some (.dict (.cons k v kvs), rest)
      have hassoc : (jsonKvs (.cons k v kvs) (i+1) ++ '\n' :: (indentS (2*i) ++ ['\x7d'])) ++ rest
          = jsonKvs (.cons k v kvs) (i+1) ++ ('\n' :: (indentS (2*i) ++ ('\x7d' :: rest))) := by
        rw [List.append_assoc]
        simp
      rw [hassoc]
      simp only [parseVal]
      rw [skipWs_cons_not_ws '\x7b' _ (by decide)]
      dsimp only
      rw [if_neg (by decide), if_neg (by decide), if_neg (by decide), if_neg (by decide),
          if_neg (by decide), if_pos rfl]
      obtain ⟨T, hT⟩ := jsonKvs_decomp k v kvs (i+1)
      have hskip : skipWs ('\n' ::
          (jsonKvs (.cons k v kvs) (i+1) ++ ('\n' :: (indentS (2*i) ++ ('\x7d' :: rest)))))
          = '"' :: ((strBody k ++ (':' :: ' ' :: (jsonVal v (i+1) ++ T)))
              ++ ('\n' :: (indentS (2*i) ++ ('\x7d' :: rest)))) := by
        rw [skipWs_nl, hT, List.append_assoc, skipWs_indent, List.cons_append]
        exact skipWs_cons_not_ws '"' _ (by decide)
      rw [hskip]
      dsimp only
      rw [if_neg (by decide)]
      have hnl : ('\n' ::
          (jsonKvs (.cons k v kvs) (i+1) ++ ('\n' :: (indentS (2*i) ++ ('\x7d' :: rest)))))
          = ['\n'] ++ (jsonKvs (.cons k v kvs) (i+1)
              ++ ('\n' :: (indentS (2*i) ++ ('\x7d' :: rest)))) := rfl
      rw [hnl, parseKvs_ws f _ _ nl_all_ws]
      rw [parseKvs_rt (.cons k v kvs) (by simp) f (i+1)
        ('\n' :: (indentS (2*i) ++ ('\x7d' :: rest))) rest
        (by simp [szV] at hf; omega)
        (by rw [skipWs_nl, skipWs_indent]; exact skipWs_cons_not_ws '\x7d' rest (by decide))]
      rfl

theorem parseItems_rt : ∀ (xs : PyValList), xs ≠ .nil →
    ∀ (f j : Nat) (suffix rest : PyStr), szL xs ≤ f → skipWs suffix = ']' :: rest →
    parseItems f (jsonItems xs j ++ suffix) = some (xs, rest)
  | .nil, hne, _, _, _, _, _, _ => absurd rfl hne
  | .cons x .nil, _, f, j, suffix, rest, hf, hsuf => by
    cases f with
    | zero => simp [szL] at hf
    | succ f =>
      show parseItems (f+1) ((indentS (2*j) ++ jsonVal x j) ++ suffix) =
        some (.cons x .nil, rest)
      rw [List.append_assoc]
      simp only [parseItems]
      rw [parseVal_ws f _ _ (indent_all_ws (2*j))]
      rw [parseVal_rt x f j suffix (by simp [szL] at hf; omega)
        (hnd_of_skipWs suffix ']' rest hsuf (by decide))]
      dsimp only
      rw [hsuf]
      dsimp only
      rw [if_neg (by decide), if_pos rfl]
  | .cons x (.cons y ys), _, f, j, suffix, rest, hf, hsuf => by
    cases f with
    | zero => simp [szL] at hf
    | succ f =>
      have hJ : jsonItems (.cons x (.cons y ys)) j =
          indentS (2*j) ++ (jsonVal x j ++ ',' :: '\n' :: jsonItems (.cons y ys) j) := by
        simp [jsonItems]
      rw [hJ, List.append_assoc]
      simp only [parseItems]
      rw [parseVal_ws f _ _ (indent_all_ws (2*j))]
      rw [List.append_assoc, List.cons_append, List.cons_append]
      rw [parseVal_rt x f j (',' :: '\n' :: (jsonItems (.cons y ys) j ++ suffix))
        (by simp [szL] at hf ⊢; omega) (by rfl)]
      dsimp only
      rw [skipWs_cons_not_ws ',' _ (by decide)]
      dsimp only
      rw [if_pos rfl]
      rw [show ('\n' :: (jsonItems (.cons y ys) j ++ suffix))
          = ['\n'] ++ (jsonItems (.cons y ys) j ++ suffix) from rfl]
      rw [parseItems_ws f _ _ nl_all_ws]
      rw [parseItems_rt (.cons y ys) (by simp) f j suffix rest
        (by simp [szL] at hf ⊢; omega) hsuf]

theorem parseKvs_rt : ∀ (kvs : PyKvList), kvs ≠ .nil →
    ∀ (f j : Nat) (suffix rest : PyStr), szK kvs ≤ f → skipWs suffix = '\x7d' :: rest →
    parseKvs f (jsonKvs kvs j ++ suffix) = some (kvs, rest)
  | .nil, hne, _, _, _, _, _, _ => absurd rfl hne
  | .cons k v .nil, _, f, j, suffix, rest, hf, hsuf => by
    cases f with
    | zero => simp [szK] at hf
    | succ f =>
      have hJ : jsonKvs (.cons k v .nil) j ++ suffix =
          indentS (2*j) ++ ('"' :: ((strBody k) ++ (':' :: ' ' :: (jsonVal v j ++ suffix)))) := by
        show (indentS (2 * j) ++ quoteStr k ++ ':' :: ' ' :: jsonVal v j) ++ suffix = _
        rw [quoteStr]
        simp [List.append_assoc]
      rw [hJ]
      simp only [parseKvs]
      rw [skipWs_append_ws _ _ (indent_all_ws (2*j))]
      rw [skipWs_cons_not_ws '"' _ (by decide)]
      dsimp only
      rw [if_pos rfl]
      rw [parseStrBody_strBody]
      dsimp only
      rw [if_pos rfl]
      rw [show (' ' :: (jsonVal v j ++ suffix)) = [' '] ++ (jsonVal v j ++ suffix) from rfl]
      rw [parseVal_ws f _ _ sp_all_ws]
      rw [parseVal_rt v f j suffix (by simp [szK] at hf; omega)
        (hnd_of_skipWs suffix '\x7d' rest hsuf (by decide))]
      dsimp only
      rw [hsuf]
      dsimp only
      rw [if_neg (by decide), if_pos rfl]
  | .cons k v (.cons k2 v2 kvs2), _, f, j, suffix, rest, hf, hsuf => by
    cases f with
    | zero => simp [szK] at hf
    | succ f =>
      have hJ : jsonKvs (.cons k v (.cons k2 v2 kvs2)) j ++ suffix =
          indentS (2*j) ++ ('"' :: ((strBody k) ++ (':' :: ' ' ::
            (jsonVal v j ++ (',' :: '\n' :: (jsonKvs (.cons k2 v2 kvs2) j ++ suffix)))))) := by
        show (indentS (2 * j) ++ quoteStr k ++ ':' :: ' ' :: jsonVal v j ++
            ',' :: '\n' :: jsonKvs (.cons k2 v2 kvs2) j) ++ suffix = _
        rw [quoteStr]
        simp [List.append_assoc]
      rw [hJ]
      simp only [parseKvs]
      rw [skipWs_append_ws _ _ (indent_all_ws (2*j))]
      rw [skipWs_cons_not_ws '"' _ (by decide)]
      dsimp only
      rw [if_pos rfl]
      rw [parseStrBody_strBody]
      dsimp only
      rw [if_pos rfl]
      rw [show (' ' :: (jsonVal v j ++ (',' :: '\n' :: (jsonKvs (.cons k2 v2 kvs2) j ++ suffix))))
          = [' '] ++ (jsonVal v j ++ (',' :: '\n' :: (jsonKvs (.cons k2 v2 kvs2) j ++ suffix)))
          from rfl]
      rw [parseVal_ws f _ _ sp_all_ws]
      rw [parseVal_rt v f j (',' :: '\n' :: (jsonKvs (.cons k2 v2 kvs2) j ++ suffix))
        (by simp [szK] at hf ⊢; omega) (by rfl)]
      dsimp only
      rw [skipWs_cons_not_ws ',' _ (by decide)]
      dsimp only
      rw [if_pos rfl]
      rw [show ('\n' :: (jsonKvs (.cons k2 v2 kvs2) j ++ suffix))
          = ['\n'] ++ (jsonKvs (.cons k2 v2 kvs2) j ++ suffix) from rfl]
      rw [parseKvs_ws f _ _ nl_all_ws]
      rw [parseKvs_rt (.cons k2 v2 kvs2) (by simp) f j suffix rest
        (by simp [szK] at hf ⊢; omega) hsuf]

end

theorem pyIntRepr_ne_nil (n : Int) : pyIntRepr n ≠ [] := by
  unfold pyIntRepr
  split
  · simp
  · exact pyNatRepr_ne_nil n.toNat

mutual

theorem szV_le_len : ∀ (v : PyVal) (i : Nat), szV v ≤ (jsonVal v i).length
  | .null, i => by
    show szV .null ≤ ("null".toList).length
    decide
  | .bool true, i => by
    show szV (.bool true) ≤ ("true".toList).length
    decide
  | .bool false, i => by
    show szV (.bool false) ≤ ("false".toList).length
    decide
  | .int n, i => by
    show szV (.int n) ≤ (pyIntRepr n).length
    have := List.length_pos.mpr (pyIntRepr_ne_nil n)
    simp [szV]
    omega
  | .str s, i => by
    show szV (.str s) ≤ ('"' :: strBody s).length
    simp [szV]
  | .list .nil, i => by
    show szV (.list .nil) ≤ (['[', ']'] : PyStr).length
    decide
  | .dict .nil, i => by
    show szV (.dict .nil) ≤ (['\x7b', '\x7d'] : PyStr).length
    decide
  | .list (.cons x xs), i => by
    show szV (.list (.cons x xs)) ≤
      ('[' :: '\n' :: (jsonItems (.cons x xs) (i+1) ++ '\n' :: (indentS (2*i) ++ [']']))).length
    have h := szL_le_len (.cons x xs) (i+1)
    simp only [szV, List.length_cons, List.length_append]
    omega
  | .dict (.cons k v kvs), i => by
    show szV (.dict (.cons k v kvs)) ≤
      ('\x7b' :: '\n' ::
        (jsonKvs (.cons k v kvs) (i+1) ++ '\n' :: (indentS (2*i) ++ ['\x7d']))).length
    have h := szK_le_len (.cons k v kvs) (i+1)
    simp only [szV, List.length_cons, List.length_append]
    omega

theorem szL_le_len : ∀ (xs : PyValList) (j : Nat), szL xs ≤ (jsonItems xs j).length + 3
  | .nil, j => by simp [szL]
  | .cons x .nil, j => by
    show szL (.cons x .nil) ≤ (indentS (2*j) ++ jsonVal x j).length + 3
    have h := szV_le_len x j
    simp only [szL, szL.eq_1, List.length_append]
    omega
  | .cons x (.cons y ys), j => by
    have hJ : jsonItems (.cons x (.cons y ys)) j =
        indentS (2*j) ++ (jsonVal x j ++ ',' :: '\n' :: jsonItems (.cons y ys) j) := by
      simp [jsonItems]
    rw [hJ]
    have h1 := szV_le_len x j
    have h2 := szL_le_len (.cons y ys) j
    have hd : szL (.cons y ys) = szV y + szL ys + 1 := rfl
    simp only [szL, List.length_append, List.length_cons]
    omega

theorem szK_le_len : ∀ (kvs : PyKvList) (j : Nat), szK kvs ≤ (jsonKvs kvs j).length + 3
  | .nil, j => by simp [szK]
  | .cons k v .nil, j => by
    show szK (.cons k v .nil) ≤
      (indentS (2*j) ++ quoteStr k ++ ':' :: ' ' :: jsonVal v j).length + 3
    have h := szV_le_len v j
    simp only [szK, szK.eq_1, List.length_append, List.length_cons]
    omega
  | .cons k v (.cons k2 v2 kvs2), j => by
    show szK (.cons k v (.cons k2 v2 kvs2)) ≤
      (indentS (2*j) ++ quoteStr k ++ ':' :: ' ' :: jsonVal v j ++
        ',' :: '\n' :: jsonKvs (.cons k2 v2 kvs2) j).length + 3
    have h1 := szV_le_len v j
    have h2 := szK_le_len (.cons k2 v2 kvs2) j
    have hd : szK (.cons k2 v2 kvs2) = szV v2 + szK kvs2 + 1 := rfl
    simp only [szK, List.length_append, List.length_cons]
    omega

end

theorem jsonLoads_jsonDumps (v : PyVal) : jsonLoads (jsonDumps v) = some v := by
  unfold jsonLoads jsonDumps
  have hb : szV v ≤ (jsonVal v 0).length + 1 := le_trans (szV_le_len v 0) (Nat.le_succ _)
  have h := parseVal_rt v ((jsonVal v 0).length + 1) 0 [] hb (by rfl)
  rw [List.append_nil] at h
  rw [h]
  dsimp only
  simp [skipWs]

end Sarvam
namespace Sarvam

theorem escChar_no_nl (c : Char) : '\n' ∉ escChar c := by
  unfold escChar
  split
  · decide
  · split
    · decide
    · split
      · decide
      · split
        · decide
        · split
          · decide
          · rename_i h1 h2 h3 h4 h5
            simp only [List.mem_singleton]
            exact fun e => h3 e.symm

theorem strBody_no_nl (s : PyStr) : '\n' ∉ strBody s := by
  induction s with
  | nil => decide
  | cons c t ih =>
    show '\n' ∉ escChar c ++ strBody t
    rw [List.mem_append]
    rintro (h | h)
    · exact escChar_no_nl c h
    · exact ih h

theorem indentS_no_nl (n : Nat) : '\n' ∉ indentS n := by
  intro h
  unfold indentS at h
  exact absurd (List.eq_of_mem_replicate h) (by decide)

theorem pyNatRepr_no_nl (n : Nat) : '\n' ∉ pyNatRepr n := by
  intro h
  have := pyNatRepr_all_digits n _ h
  exact absurd this (by decide)

theorem pyIntRepr_no_nl (n : Int) : '\n' ∉ pyIntRepr n := by
  unfold pyIntRepr
  split
  · rw [List.mem_cons]
    rintro (h | h)
    · exact absurd h (by decide)
    · exact pyNatRepr_no_nl _ h
  · exact pyNatRepr_no_nl _

theorem yInline_no_nl (v : PyVal) (t : PyStr) (h : yInlineOpt v = some t) : '\n' ∉ t := by
  cases v with
  | null => rw [yInlineOpt] at h; rw [← Option.some.inj h]; decide
  | bool b =>
    cases b <;> rw [yInlineOpt] at h <;> rw [← Option.some.inj h] <;> decide
  | int n =>
    rw [yInlineOpt] at h
    rw [← Option.some.inj h]
    exact pyIntRepr_no_nl n
  | str s =>
    rw [yInlineOpt] at h
    rw [← Option.some.inj h]
    show '\n' ∉ '"' :: strBody s
    rw [List.mem_cons]
    rintro (e | e)
    · exact absurd e (by decide)
    · exact strBody_no_nl s e
  | list xs =>
    cases xs with
    | nil => rw [yInlineOpt] at h; rw [← Option.some.inj h]; decide
    | cons x tl => rw [yInlineOpt] at h; exact absurd h (by simp)
  | dict kvs =>
    cases kvs with
    | nil => rw [yInlineOpt] at h; rw [← Option.some.inj h]; decide
    | cons k v2 tl => rw [yInlineOpt] at h; exact absurd h (by simp)

end Sarvam

namespace Sarvam

theorem quoteStr_no_nl (k : PyStr) : '\n' ∉ quoteStr k := by
  rw [quoteStr, List.mem_cons]
  rintro (e | e)
  · exact absurd e (by decide)
  · exact strBody_no_nl k e

mutual

theorem yBlock_no_nl : ∀ (v : PyVal) (i : Nat), ∀ l ∈ yBlockLines v i, '\n' ∉ l
  | .list xs, i => yItems_no_nl xs i
  | .dict kvs, i => yKvs_no_nl kvs i
  | .null, i => by
    intro l hl
    rw [List.mem_singleton.mp hl]
    intro h
    rcases List.mem_append.mp h with h | h
    · exact indentS_no_nl i h
    · revert h
      show '\n' ∉ (yInlineOpt PyVal.null).getD []
      decide
  | .bool b, i => by
    intro l hl
    rw [List.mem_singleton.mp hl]
    intro h
    rcases List.mem_append.mp h with h | h
    · exact indentS_no_nl i h
    · revert h
      show '\n' ∉ (yInlineOpt (.bool b)).getD []
      cases b <;> decide
  | .int n, i => by
    intro l hl
    rw [List.mem_singleton.mp hl]
    intro h
    rcases List.mem_append.mp h with h | h
    · exact indentS_no_nl i h
    · exact pyIntRepr_no_nl n h
  | .str s, i => by
    intro l hl
    rw [List.mem_singleton.mp hl]
    intro h
    rcases List.mem_append.mp h with h | h
    · exact indentS_no_nl i h
    · exact yInline_no_nl (.str s) _ rfl h

theorem yItems_no_nl : ∀ (xs : PyValList) (i : Nat), ∀ l ∈ yItemLines xs i, '\n' ∉ l
  | .nil, i => by intro l hl; simp [yItemLines] at hl
  | .cons x tl, i => by
    intro l hl
    rw [yItemLines] at hl
    rcases h : yInlineOpt x with _ | t
    · rw [h] at hl
      rcases List.mem_cons.mp hl with rfl | hl2
      · intro hmem
        rcases List.mem_append.mp hmem with hm | hm
        · exact indentS_no_nl i hm
        · exact absurd (List.mem_singleton.mp hm) (by decide)
      · rcases List.mem_append.mp hl2 with hm | hm
        · exact yBlock_no_nl x (i + 2) l hm
        · exact yItems_no_nl tl i l hm
    · rw [h] at hl
      rcases List.mem_cons.mp hl with rfl | hl2
      · intro hmem
        rcases List.mem_append.mp hmem with hm | hm
        · exact indentS_no_nl i hm
        · rcases List.mem_cons.mp hm with he | hm2
          · exact absurd he (by decide)
          · rcases List.mem_cons.mp hm2 with he | hm3
            · exact absurd he (by decide)
            · exact yInline_no_nl x t h hm3
      · exact yItems_no_nl tl i l hl2

theorem yKvs_no_nl : ∀ (kvs : PyKvList) (i : Nat), ∀ l ∈ yKvLines kvs i, '\n' ∉ l
  | .nil, i => by intro l hl; simp [yKvLines] at hl
  | .cons k v tl, i => by
    intro l hl
    rw [yKvLines] at hl
    rcases h : yInlineOpt v with _ | t
    · rw [h] at hl
      rcases List.mem_cons.mp hl with rfl | hl2
      · intro hmem
        rcases List.mem_append.mp hmem with hm | hm
        · rcases List.mem_append.mp hm with hm2 | hm2
          · exact indentS_no_nl i hm2
          · exact quoteStr_no_nl k hm2
        · exact absurd (List.mem_singleton.mp hm) (by decide)
      · rcases List.mem_append.mp hl2 with hm | hm
        · exact yBlock_no_nl v (i + 2) l hm
        · exact yKvs_no_nl tl i l hm
    · rw [h] at hl
      rcases List.mem_cons.mp hl with rfl | hl2
      · intro hmem
        rcases List.mem_append.mp hmem with hm | hm
        · rcases List.mem_append.mp hm with hm2 | hm2
          · exact indentS_no_nl i hm2
          · exact quoteStr_no_nl k hm2
        · rcases List.mem_cons.mp hm with he | hm3
          · exact absurd he (by decide)
          · rcases List.mem_cons.mp hm3 with he | hm4
            · exact absurd he (by decide)
            · exact yInline_no_nl v t h hm4
      · exact yKvs_no_nl tl i l hl2

end

end Sarvam

namespace Sarvam

theorem splitLines_append_nl (l : PyStr) (z : PyStr) (h : '\n' ∉ l) :
    splitLines (l ++ '\n' :: z) = l :: splitLines z := by
  induction l with
  | nil =>
    show splitLines ('\n' :: z) = [] :: splitLines z
    conv_lhs => unfold splitLines
    rw [if_pos rfl]
  | cons c t ih =>
    have hc : c ≠ '\n' := fun e => h (e ▸ List.mem_cons_self c t)
    have ht : '\n' ∉ t := fun e => h (List.mem_cons_of_mem c e)
    show splitLines (c :: (t ++ '\n' :: z)) = (c :: t) :: splitLines z
    conv_lhs => unfold splitLines
    rw [if_neg hc, ih ht]

theorem splitLines_unlines (ls : List PyStr) (h : ∀ l ∈ ls, '\n' ∉ l) :
    splitLines (unlines ls) = ls ++ [[]] := by
  induction ls with
  | nil => rfl
  | cons l ls ih =>
    show splitLines (l ++ '\n' :: unlines ls) = (l :: ls) ++ [[]]
    rw [splitLines_append_nl l _ (h l (List.mem_cons_self l ls))]
    rw [ih (fun l2 hl2 => h l2 (List.mem_cons_of_mem l hl2))]
    rfl

theorem prepLines_unlines (ls : List PyStr) (h : ∀ l ∈ ls, '\n' ∉ l) :
    prepLines (unlines ls) = ls := by
  unfold prepLines
  rw [splitLines_unlines ls h]
  rw [if_pos (by simp), List.dropLast_concat]

theorem indentOf_exact (i : Nat) (c : Char) (t : PyStr) (h : c ≠ ' ') :
    indentOf (indentS i ++ c :: t) = i := by
  unfold indentOf indentS
  rw [takeWhile_append_all _ _ _ (by
    intro d hd
    rw [List.eq_of_mem_replicate hd]
    simp)]
  rw [List.takeWhile_cons]
  have hc : decide (c = ' ') = false := by simp [h]
  rw [hc]
  simp

theorem drop_indent (i : Nat) (x : PyStr) : (indentS i ++ x).drop i = x :=
  List.drop_left' (by simp [indentS])

theorem deIndent_exact (i : Nat) (c : Char) (t : PyStr) (h : c ≠ ' ') :
    deIndent i (indentS i ++ c :: t) = some (c :: t) := by
  unfold deIndent
  rw [if_pos (indentOf_exact i c t h), drop_indent]

end Sarvam

namespace Sarvam

theorem yItemLines_head (xs : PyValList) (hne : xs ≠ .nil) (i : Nat) :
    ∃ t ls, yItemLines xs i = (indentS i ++ '-' :: t) :: ls := by
  cases xs with
  | nil => exact absurd rfl hne
  | cons x tl =>
    rw [yItemLines]
    cases h : yInlineOpt x with
    | some t => exact ⟨' ' :: t, yItemLines tl i, rfl⟩
    | none => exact ⟨[], yBlockLines x (i + 2) ++ yItemLines tl i, rfl⟩

theorem yKvLines_head (kvs : PyKvList) (hne : kvs ≠ .nil) (i : Nat) :
    ∃ t ls, yKvLines kvs i = (indentS i ++ '"' :: t) :: ls := by
  cases kvs with
  | nil => exact absurd rfl hne
  | cons k v tl =>
    rw [yKvLines]
    cases h : yInlineOpt v with
    | some t =>
      refine ⟨strBody k ++ (':' :: ' ' :: t), yKvLines tl i, ?_⟩
      rw [quoteStr]
      simp
    | none =>
      refine ⟨strBody k ++ [':'], yBlockLines v (i + 2) ++ yKvLines tl i, ?_⟩
      rw [quoteStr]
      simp

theorem cons_ne_of_head (c1 c2 : Char) (t1 t2 : PyStr) (h : c1 ≠ c2) :
    c1 :: t1 ≠ c2 :: t2 := by
  intro he
  rw [List.cons.injEq] at he
  exact h he.1

theorem cons_ne_lit (c : Char) (t : PyStr) (l : PyStr) (c2 : Char) (t2 : PyStr)
    (hs : l = c2 :: t2) (h : c ≠ c2) : c :: t ≠ l := by
  rw [hs]
  exact cons_ne_of_head c c2 t t2 h

theorem parseNatNum_repr_nil (m : Nat) : parseNatNum (pyNatRepr m) = some (m, []) := by
  have h := parseNatNum_repr m [] rfl
  rwa [List.append_nil] at h

theorem parseStrBody_strBody_nil (s : PyStr) : parseStrBody (strBody s) = some (s, []) := by
  have h := parseStrBody_strBody s []
  rwa [List.append_nil] at h

theorem parseYInline_yInline (v : PyVal) (t : PyStr) (h : yInlineOpt v = some t) :
    parseYInline t = some v := by
  cases v with
  | null => rw [yInlineOpt] at h; rw [← Option.some.inj h]; rfl
  | bool b => cases b <;> rw [yInlineOpt] at h <;> rw [← Option.some.inj h] <;> rfl
  | int n =>
    rw [yInlineOpt] at h
    rw [← Option.some.inj h]
    show parseYInline (pyIntRepr n) = some (.int n)
    unfold pyIntRepr
    split
    · unfold parseYInline
      rw [if_neg (cons_ne_lit '-' (pyNatRepr n.natAbs) "null".toList 'n' "ull".toList rfl (by decide)),
          if_neg (cons_ne_lit '-' (pyNatRepr n.natAbs) "true".toList 't' "rue".toList rfl (by decide)),
          if_neg (cons_ne_lit '-' (pyNatRepr n.natAbs) "false".toList 'f' "alse".toList rfl (by decide)),
          if_neg (cons_ne_of_head '-' '[' (pyNatRepr n.natAbs) [']'] (by decide)),
          if_neg (cons_ne_of_head '-' '\x7b' (pyNatRepr n.natAbs) ['\x7d'] (by decide))]
      dsimp only
      rw [if_neg (by decide), if_pos rfl]
      rw [parseNatNum_repr_nil]
      dsimp only
      have he : -((n.natAbs : Nat) : Int) = n := by rename_i hn; omega
      rw [he]
    · obtain ⟨c, t2, hct, hc⟩ := pyNatRepr_shape n.toNat
      obtain ⟨h1, h2, h3, h4, h5, h6, h7, _, _, _⟩ := digit_facts c hc
      rw [hct]
      unfold parseYInline
      rw [if_neg (cons_ne_lit c t2 "null".toList 'n' "ull".toList rfl h1),
          if_neg (cons_ne_lit c t2 "true".toList 't' "rue".toList rfl h2),
          if_neg (cons_ne_lit c t2 "false".toList 'f' "alse".toList rfl h3),
          if_neg (cons_ne_of_head c '[' t2 [']'] h5),
          if_neg (cons_ne_of_head c '\x7b' t2 ['\x7d'] h6)]
      dsimp only
      rw [if_neg h4, if_neg h7]
      rw [← hct, parseNatNum_repr_nil]
      dsimp only
      have he : ((n.toNat : Nat) : Int) = n := by rename_i hn; omega
      rw [he]
  | str s =>
    rw [yInlineOpt] at h
    rw [← Option.some.inj h]
    show parseYInline ('"' :: strBody s) = some (.str s)
    unfold parseYInline
    rw [if_neg (cons_ne_lit '"' (strBody s) "null".toList 'n' "ull".toList rfl (by decide)),
        if_neg (cons_ne_lit '"' (strBody s) "true".toList 't' "rue".toList rfl (by decide)),
        if_neg (cons_ne_lit '"' (strBody s) "false".toList 'f' "alse".toList rfl (by decide)),
        if_neg (cons_ne_of_head '"' '[' (strBody s) [']'] (by decide)),
        if_neg (cons_ne_of_head '"' '\x7b' (strBody s) ['\x7d'] (by decide))]
    dsimp only
    rw [if_pos rfl, parseStrBody_strBody_nil]
  | list xs =>
    cases xs with
    | nil => rw [yInlineOpt] at h; rw [← Option.some.inj h]; rfl
    | cons x tl => rw [yInlineOpt] at h; exact absurd h (by simp)
  | dict kvs =>
    cases kvs with
    | nil => rw [yInlineOpt] at h; rw [← Option.some.inj h]; rfl
    | cons k v2 tl => rw [yInlineOpt] at h; exact absurd h (by simp)

end Sarvam

namespace Sarvam

theorem parseYInline_none_kv (k : PyStr) (z : PyStr) :
    parseYInline (quoteStr k ++ ':' :: z) = none := by
  rw [quoteStr, List.cons_append]
  unfold parseYInline
  rw [if_neg (cons_ne_lit '"' (strBody k ++ ':' :: z) "null".toList 'n' "ull".toList rfl (by decide)),
      if_neg (cons_ne_lit '"' (strBody k ++ ':' :: z) "true".toList 't' "rue".toList rfl (by decide)),
      if_neg (cons_ne_lit '"' (strBody k ++ ':' :: z) "false".toList 'f' "alse".toList rfl (by decide)),
      if_neg (cons_ne_of_head '"' '[' (strBody k ++ ':' :: z) [']'] (by decide)),
      if_neg (cons_ne_of_head '"' '\x7b' (strBody k ++ ':' :: z) ['\x7d'] (by decide))]
  dsimp only
  rw [if_pos rfl, parseStrBody_strBody]

theorem yBlock_ne_nil (v : PyVal) (hv : yInlineOpt v = none) (i : Nat) :
    yBlockLines v i ≠ [] := by
  cases v with
  | null => exact absurd hv (by rw [yInlineOpt]; simp)
  | bool b => cases b <;> exact absurd hv (by rw [yInlineOpt]; simp)
  | int n => exact absurd hv (by rw [yInlineOpt]; simp)
  | str s => exact absurd hv (by rw [yInlineOpt]; simp)
  | list xs =>
    cases xs with
    | nil => exact absurd hv (by rw [yInlineOpt]; simp)
    | cons x tl =>
      obtain ⟨t, ls, hl⟩ := yItemLines_head (.cons x tl) (by simp) i
      show yItemLines (.cons x tl) i ≠ []
      rw [hl]
      simp
  | dict kvs =>
    cases kvs with
    | nil => exact absurd hv (by rw [yInlineOpt]; simp)
    | cons k v2 tl =>
      obtain ⟨t, ls, hl⟩ := yKvLines_head (.cons k v2 tl) (by simp) i
      show yKvLines (.cons k v2 tl) i ≠ []
      rw [hl]
      simp

theorem guard_append_items (i : Nat) (tl : PyValList) (restL : List PyStr)
    (hg : linesGuard i restL) : linesGuard (i + 2) (yItemLines tl i ++ restL) := by
  cases tl with
  | nil =>
    show linesGuard (i + 2) ([] ++ restL)
    rw [List.nil_append]
    rcases hg with rfl | ⟨l, ls, rfl, hlt⟩
    · exact Or.inl rfl
    · exact Or.inr ⟨l, ls, rfl, by omega⟩
  | cons x tl2 =>
    obtain ⟨t, ls, hl⟩ := yItemLines_head (.cons x tl2) (by simp) i
    rw [hl, List.cons_append]
    exact Or.inr ⟨_, _, rfl, by rw [indentOf_exact i '-' t (by decide)]; omega⟩

theorem guard_append_kvs (i : Nat) (tl : PyKvList) (restL : List PyStr)
    (hg : linesGuard i restL) : linesGuard (i + 2) (yKvLines tl i ++ restL) := by
  cases tl with
  | nil =>
    show linesGuard (i + 2) ([] ++ restL)
    rw [List.nil_append]
    rcases hg with rfl | ⟨l, ls, rfl, hlt⟩
    · exact Or.inl rfl
    · exact Or.inr ⟨l, ls, rfl, by omega⟩
  | cons k v tl2 =>
    obtain ⟨t, ls, hl⟩ := yKvLines_head (.cons k v tl2) (by simp) i
    rw [hl, List.cons_append]
    exact Or.inr ⟨_, _, rfl, by rw [indentOf_exact i '"' t (by decide)]; omega⟩

end Sarvam

namespace Sarvam

theorem itemsCont (x : PyVal) (tl : PyValList) (f i : Nat) (restL : List PyStr)
    (hg : linesGuard i restL)
    (IH : tl ≠ .nil → parseYItems f i (yItemLines tl i ++ restL) = some (tl, restL)) :
    (match yItemLines tl i ++ restL with
     | [] => some (PyValList.cons x .nil, ([] : List PyStr))
     | l2 :: _ =>
       if indentOf l2 = i then
         (parseYItems f i (yItemLines tl i ++ restL)).map
           (fun p => (PyValList.cons x p.1, p.2))
       else some (PyValList.cons x .nil, yItemLines tl i ++ restL)) =
    some (PyValList.cons x tl, restL) := by
  cases tl with
  | nil =>
    rw [show yItemLines .nil i = [] from rfl, List.nil_append]
    rcases hg with rfl | ⟨l, ls, rfl, hlt⟩
    · rfl
    · dsimp only
      rw [if_neg (by omega)]
  | cons y ys =>
    obtain ⟨t, ls, hl⟩ := yItemLines_head (.cons y ys) (by simp) i
    rw [hl, List.cons_append]
    dsimp only
    rw [indentOf_exact i '-' t (by decide), if_pos rfl]
    rw [← List.cons_append, ← hl]
    rw [IH (by simp)]
    rfl

theorem kvsCont (k : PyStr) (v : PyVal) (tl : PyKvList) (f i : Nat) (restL : List PyStr)
    (hg : linesGuard i restL)
    (IH : tl ≠ .nil → parseYKvs f i (yKvLines tl i ++ restL) = some (tl, restL)) :
    (match yKvLines tl i ++ restL with
     | [] => some (PyKvList.cons k v .nil, ([] : List PyStr))
     | l2 :: _ =>
       if indentOf l2 = i then
         (parseYKvs f i (yKvLines tl i ++ restL)).map
           (fun p => (PyKvList.cons k v p.1, p.2))
       else some (PyKvList.cons k v .nil, yKvLines tl i ++ restL)) =
    some (PyKvList.cons k v tl, restL) := by
  cases tl with
  | nil =>
    rw [show yKvLines .nil i = [] from rfl, List.nil_append]
    rcases hg with rfl | ⟨l, ls, rfl, hlt⟩
    · rfl
    · dsimp only
      rw [if_neg (by omega)]
  | cons k2 v2 ys =>
    obtain ⟨t, ls, hl⟩ := yKvLines_head (.cons k2 v2 ys) (by simp) i
    rw [hl, List.cons_append]
    dsimp only
    rw [indentOf_exact i '"' t (by decide), if_pos rfl]
    rw [← List.cons_append, ← hl]
    rw [IH (by simp)]
    rfl

mutual

theorem parseYBlock_rt : ∀ (v : PyVal), yInlineOpt v = none →
    ∀ (f i : Nat) (restL : List PyStr), szV v ≤ f → linesGuard i restL →
    parseYBlock f i (yBlockLines v i ++ restL) = some (v, restL)
  | .null, hv, _, _, _, _, _ => absurd hv (by rw [yInlineOpt]; simp)
  | .bool b, hv, _, _, _, _, _ => by cases b <;> exact absurd hv (by rw [yInlineOpt]; simp)
  | .int n, hv, _, _, _, _, _ => absurd hv (by rw [yInlineOpt]; simp)
  | .str s, hv, _, _, _, _, _ => absurd hv (by rw [yInlineOpt]; simp)
  | .list .nil, hv, _, _, _, _, _ => absurd hv (by rw [yInlineOpt]; simp)
  | .dict .nil, hv, _, _, _, _, _ => absurd hv (by rw [yInlineOpt]; simp)
  | .list (.cons x xs), _, f, i, restL, hf, hg => by
    cases f with
    | zero => simp [szV] at hf
    | succ f =>
      obtain ⟨t, ls, hl⟩ := yItemLines_head (.cons x xs) (by simp) i
      show parseYBlock (f+1) i (yItemLines (.cons x xs) i ++ restL) =
        some (.list (.cons x xs), restL)
      rw [hl, List.cons_append]
      simp only [parseYBlock]
      rw [deIndent_exact i '-' t (by decide)]
      dsimp only
      rw [if_pos rfl]
      rw [← List.cons_append, ← hl]
      rw [parseYItems_rt (.cons x xs) (by simp) f i restL (by simp [szV] at hf; omega) hg]
      rfl
  | .dict (.cons k v kvs), _, f, i, restL, hf, hg => by
    cases f with
    | zero => simp [szV] at hf
    | succ f =>
      obtain ⟨t, ls, hl⟩ := yKvLines_head (.cons k v kvs) (by simp) i
      show parseYBlock (f+1) i (yKvLines (.cons k v kvs) i ++ restL) =
        some (.dict (.cons k v kvs), restL)
      rw [hl, List.cons_append]
      simp only [parseYBlock]
      rw [deIndent_exact i '"' t (by decide)]
      dsimp only
      rw [if_neg (by decide), if_pos rfl]
      rw [← List.cons_append, ← hl]
      rw [parseYKvs_rt (.cons k v kvs) (by simp) f i restL (by simp [szV] at hf; omega) hg]
      rfl

theorem parseYItems_rt : ∀ (xs : PyValList), xs ≠ .nil →
    ∀ (f i : Nat) (restL : List PyStr), szL xs ≤ f → linesGuard i restL →
    parseYItems f i (yItemLines xs i ++ restL) = some (xs, restL)
  | .nil, hne, _, _, _, _, _ => absurd rfl hne
  | .cons x tl, _, f, i, restL, hf, hg => by
    cases f with
    | zero => simp [szL] at hf
    | succ f =>
      cases hx : yInlineOpt x with
      | some t =>
        have hL : yItemLines (.cons x tl) i =
            (indentS i ++ '-' :: ' ' :: t) :: yItemLines tl i := by
          rw [yItemLines, hx]
        rw [hL, List.cons_append]
        simp only [parseYItems]
        rw [deIndent_exact i '-' (' ' :: t) (by decide)]
        dsimp only
        rw [if_pos rfl]
        rw [if_pos rfl]
        rw [parseYInline_yInline x t hx]
        exact itemsCont x tl f i restL hg
          (fun h2 => parseYItems_rt tl h2 f i restL (by simp [szL] at hf; omega) hg)
      | none =>
        have hL : yItemLines (.cons x tl) i =
            (indentS i ++ '-' :: []) :: (yBlockLines x (i + 2) ++ yItemLines tl i) := by
          rw [yItemLines, hx]
        rw [hL, List.cons_append]
        simp only [parseYItems]
        rw [deIndent_exact i '-' [] (by decide)]
        dsimp only
        rw [if_pos rfl]
        rw [List.append_assoc]
        rw [parseYBlock_rt x hx f (i + 2) (yItemLines tl i ++ restL)
          (by simp [szL] at hf; omega) (guard_append_items i tl restL hg)]
        dsimp only
        exact itemsCont x tl f i restL hg
          (fun h2 => parseYItems_rt tl h2 f i restL (by simp [szL] at hf; omega) hg)

theorem parseYKvs_rt : ∀ (kvs : PyKvList), kvs ≠ .nil →
    ∀ (f i : Nat) (restL : List PyStr), szK kvs ≤ f → linesGuard i restL →
    parseYKvs f i (yKvLines kvs i ++ restL) = some (kvs, restL)
  | .nil, hne, _, _, _, _, _ => absurd rfl hne
  | .cons k v tl, _, f, i, restL, hf, hg => by
    cases f with
    | zero => simp [szK] at hf
    | succ f =>
      cases hx : yInlineOpt v with
      | some t =>
        have hL : yKvLines (.cons k v tl) i =
            (indentS i ++ ('"' :: (strBody k ++ ':' :: ' ' :: t))) :: yKvLines tl i := by
          rw [yKvLines, hx, quoteStr]
          simp
        rw [hL, List.cons_append]
        simp only [parseYKvs]
        rw [deIndent_exact i '"' (strBody k ++ ':' :: ' ' :: t) (by decide)]
        dsimp only
        rw [if_pos rfl]
        rw [parseStrBody_strBody]
        dsimp only
        rw [if_pos rfl]
        rw [if_pos rfl]
        rw [parseYInline_yInline v t hx]
        exact kvsCont k v tl f i restL hg
          (fun h2 => parseYKvs_rt tl h2 f i restL (by simp [szK] at hf; omega) hg)
      | none =>
        have hL : yKvLines (.cons k v tl) i =
            (indentS i ++ ('"' :: (strBody k ++ [':']))) ::
              (yBlockLines v (i + 2) ++ yKvLines tl i) := by
          rw [yKvLines, hx, quoteStr]
          simp
        rw [hL, List.cons_append]
        simp only [parseYKvs]
        rw [deIndent_exact i '"' (strBody k ++ [':']) (by decide)]
        dsimp only
        rw [if_pos rfl]
        rw [parseStrBody_strBody]
        dsimp only
        rw [if_pos rfl]
        rw [List.append_assoc]
        rw [parseYBlock_rt v hx f (i + 2) (yKvLines tl i ++ restL)
          (by simp [szK] at hf; omega) (guard_append_kvs i tl restL hg)]
        dsimp only
        exact kvsCont k v tl f i restL hg
          (fun h2 => parseYKvs_rt tl h2 f i restL (by simp [szK] at hf; omega) hg)

end

end Sarvam

namespace Sarvam

theorem szV_of_inline : ∀ (v : PyVal) (t : PyStr), yInlineOpt v = some t → szV v = 1
  | .null, _, _ => rfl
  | .bool _, _, _ => rfl
  | .int _, _, _ => rfl
  | .str _, _, _ => rfl
  | .list .nil, _, _ => rfl
  | .dict .nil, _, _ => rfl
  | .list (.cons _ _), _, h => absurd h (by rw [yInlineOpt]; simp)
  | .dict (.cons _ _ _), _, h => absurd h (by rw [yInlineOpt]; simp)

theorem yInline_len : ∀ (v : PyVal) (t : PyStr), yInlineOpt v = some t → 1 ≤ t.length
  | .null, t, h => by
    rw [yInlineOpt, Option.some_inj] at h
    rw [← h]; decide
  | .bool true, t, h => by
    rw [yInlineOpt, Option.some_inj] at h
    rw [← h]; decide
  | .bool false, t, h => by
    rw [yInlineOpt, Option.some_inj] at h
    rw [← h]; decide
  | .int n, t, h => by
    rw [yInlineOpt, Option.some_inj] at h
    rw [← h]
    exact List.length_pos.mpr (pyIntRepr_ne_nil n)
  | .str s, t, h => by
    rw [yInlineOpt, Option.some_inj] at h
    rw [← h, quoteStr]
    simp
  | .list .nil, t, h => by
    rw [yInlineOpt, Option.some_inj] at h
    rw [← h]; decide
  | .dict .nil, t, h => by
    rw [yInlineOpt, Option.some_inj] at h
    rw [← h]; decide
  | .list (.cons _ _), _, h => absurd h (by rw [yInlineOpt]; simp)
  | .dict (.cons _ _ _), _, h => absurd h (by rw [yInlineOpt]; simp)

theorem unlines_append (a b : List PyStr) : unlines (a ++ b) = unlines a ++ unlines b := by
  induction a with
  | nil => rfl
  | cons l ls ih =>
    show l ++ '\n' :: unlines (ls ++ b) = (l ++ '\n' :: unlines ls) ++ unlines b
    rw [ih]
    simp

mutual

theorem yszV_le : ∀ (v : PyVal) (i : Nat), yInlineOpt v = none →
    szV v ≤ (unlines (yBlockLines v i)).length
  | .null, _, h => absurd h (by rw [yInlineOpt]; simp)
  | .bool true, _, h => absurd h (by rw [yInlineOpt]; simp)
  | .bool false, _, h => absurd h (by rw [yInlineOpt]; simp)
  | .int _, _, h => absurd h (by rw [yInlineOpt]; simp)
  | .str _, _, h => absurd h (by rw [yInlineOpt]; simp)
  | .list .nil, _, h => absurd h (by rw [yInlineOpt]; simp)
  | .dict .nil, _, h => absurd h (by rw [yInlineOpt]; simp)
  | .list (.cons x xs), i, _ => by
    show szL (.cons x xs) + 1 ≤ (unlines (yItemLines (.cons x xs) i)).length
    exact yszL_le (.cons x xs) i (by simp)
  | .dict (.cons k v kvs), i, _ => by
    show szK (.cons k v kvs) + 1 ≤ (unlines (yKvLines (.cons k v kvs) i)).length
    exact yszK_le (.cons k v kvs) i (by simp)

theorem yszL_le : ∀ (xs : PyValList) (i : Nat), xs ≠ .nil →
    szL xs + 1 ≤ (unlines (yItemLines xs i)).length
  | .nil, _, hne => absurd rfl hne
  | .cons x tl, i, _ => by
    have hind : (indentS i).length = i := by simp [indentS]
    have hsz : szL (.cons x tl) = szV x + szL tl + 1 := rfl
    cases hx : yInlineOpt x with
    | some t =>
      have h1 : 1 ≤ t.length := yInline_len x t hx
      have h2 : szV x = 1 := szV_of_inline x t hx
      have hL : yItemLines (.cons x tl) i
          = (indentS i ++ '-' :: ' ' :: t) :: yItemLines tl i := by
        rw [yItemLines, hx]
      rw [hL]
      have hlen : (unlines ((indentS i ++ '-' :: ' ' :: t) :: yItemLines tl i)).length
          = i + t.length + 3 + (unlines (yItemLines tl i)).length := by
        show ((indentS i ++ '-' :: ' ' :: t) ++ '\n' :: unlines (yItemLines tl i)).length = _
        simp only [List.length_append, List.length_cons, hind]
        omega
      rw [hlen, hsz, h2]
      cases tl with
      | nil =>
        have h0 : szL PyValList.nil = 0 := rfl
        have h00 : (unlines (yItemLines PyValList.nil i)).length = 0 := rfl
        omega
      | cons y ys =>
        have ih := yszL_le (.cons y ys) i (by simp)
        omega
    | none =>
      have ihx := yszV_le x (i + 2) hx
      have hL : yItemLines (.cons x tl) i
          = (indentS i ++ ['-']) :: (yBlockLines x (i + 2) ++ yItemLines tl i) := by
        rw [yItemLines, hx]
      rw [hL]
      have hlen : (unlines ((indentS i ++ ['-']) ::
            (yBlockLines x (i + 2) ++ yItemLines tl i))).length
          = i + 2 + (unlines (yBlockLines x (i + 2))).length
            + (unlines (yItemLines tl i)).length := by
        show ((indentS i ++ ['-']) ++ '\n' :: unlines (yBlockLines x (i + 2) ++ yItemLines tl i)).length = _
        rw [unlines_append]
        simp only [List.length_append, List.length_cons, List.length_nil, hind]
        omega
      rw [hlen, hsz]
      cases tl with
      | nil =>
        have h0 : szL PyValList.nil = 0 := rfl
        have h00 : (unlines (yItemLines PyValList.nil i)).length = 0 := rfl
        omega
      | cons y ys =>
        have ih := yszL_le (.cons y ys) i (by simp)
        omega

theorem yszK_le : ∀ (kvs : PyKvList) (i : Nat), kvs ≠ .nil →
    szK kvs + 1 ≤ (unlines (yKvLines kvs i)).length
  | .nil, _, hne => absurd rfl hne
  | .cons k v tl, i, _ => by
    have hind : (indentS i).length = i := by simp [indentS]
    have hsz : szK (.cons k v tl) = szV v + szK tl + 1 := rfl
    cases hx : yInlineOpt v with
    | some t =>
      have h1 : 1 ≤ t.length := yInline_len v t hx
      have h2 : szV v = 1 := szV_of_inline v t hx
      have hL : yKvLines (.cons k v tl) i
          = (indentS i ++ quoteStr k ++ ':' :: ' ' :: t) :: yKvLines tl i := by
        rw [yKvLines, hx]
      rw [hL]
      have hlen : (unlines ((indentS i ++ quoteStr k ++ ':' :: ' ' :: t) :: yKvLines tl i)).length
          = i + (strBody k).length + t.length + 4 + (unlines (yKvLines tl i)).length := by
        show ((indentS i ++ quoteStr k ++ ':' :: ' ' :: t) ++ '\n' :: unlines (yKvLines tl i)).length = _
        simp only [quoteStr, List.length_append, List.length_cons, hind]
        omega
      rw [hlen, hsz, h2]
      cases tl with
      | nil =>
        have h0 : szK PyKvList.nil = 0 := rfl
        have h00 : (unlines (yKvLines PyKvList.nil i)).length = 0 := rfl
        omega
      | cons k2 v2 ys =>
        have ih := yszK_le (.cons k2 v2 ys) i (by simp)
        omega
    | none =>
      have ihx := yszV_le v (i + 2) hx
      have hL : yKvLines (.cons k v tl) i
          = (indentS i ++ quoteStr k ++ [':']) :: (yBlockLines v (i + 2) ++ yKvLines tl i) := by
        rw [yKvLines, hx]
      rw [hL]
      have hlen : (unlines ((indentS i ++ quoteStr k ++ [':']) ::
            (yBlockLines v (i + 2) ++ yKvLines tl i))).length
          = i + (strBody k).length + 3 + (unlines (yBlockLines v (i + 2))).length
            + (unlines (yKvLines tl i)).length := by
        show ((indentS i ++ quoteStr k ++ [':']) ++ '\n' :: unlines (yBlockLines v (i + 2) ++ yKvLines tl i)).length = _
        rw [unlines_append]
        simp only [quoteStr, List.length_append, List.length_cons, List.length_nil, hind]
        ring
      rw [hlen, hsz]
      cases tl with
      | nil =>
        have h0 : szK PyKvList.nil = 0 := rfl
        have h00 : (unlines (yKvLines PyKvList.nil i)).length = 0 := rfl
        omega
      | cons k2 v2 ys =>
        have ih := yszK_le (.cons k2 v2 ys) i (by simp)
        omega

end

theorem parseNatNum_sp (t : PyStr) : parseNatNum (' ' :: t) = none := by
  unfold parseNatNum
  rw [takeWhile_hnd (' ' :: t) rfl]
  rfl

theorem parseYInline_none_item (t : PyStr) : parseYInline ('-' :: ' ' :: t) = none := by
  unfold parseYInline
  rw [if_neg (cons_ne_lit '-' (' ' :: t) "null".toList 'n' "ull".toList rfl (by decide)),
      if_neg (cons_ne_lit '-' (' ' :: t) "true".toList 't' "rue".toList rfl (by decide)),
      if_neg (cons_ne_lit '-' (' ' :: t) "false".toList 'f' "alse".toList rfl (by decide)),
      if_neg (cons_ne_of_head '-' '[' (' ' :: t) [']'] (by decide)),
      if_neg (cons_ne_of_head '-' '\x7b' (' ' :: t) ['\x7d'] (by decide))]
  dsimp only
  rw [if_neg (by decide), if_pos rfl, parseNatNum_sp]

theorem inline_match_none (v : PyVal) (hx : yInlineOpt v = none) :
    (match yBlockLines v 0 with
     | [l] => parseYInline l
     | _ => none) = (none : Option PyVal) := by
  cases v with
  | null => exact absurd hx (by rw [yInlineOpt]; simp)
  | bool b => cases b <;> exact absurd hx (by rw [yInlineOpt]; simp)
  | int n => exact absurd hx (by rw [yInlineOpt]; simp)
  | str s => exact absurd hx (by rw [yInlineOpt]; simp)
  | list xs =>
    cases xs with
    | nil => exact absurd hx (by rw [yInlineOpt]; simp)
    | cons x tl =>
      show (match yItemLines (.cons x tl) 0 with
            | [l] => parseYInline l
            | _ => none) = (none : Option PyVal)
      cases hx2 : yInlineOpt x with
      | some t =>
        have hL : yItemLines (.cons x tl) 0
            = (indentS 0 ++ '-' :: ' ' :: t) :: yItemLines tl 0 := by
          rw [yItemLines, hx2]
        rw [hL]
        cases htl : yItemLines tl 0 with
        | nil =>
          dsimp only
          show parseYInline ('-' :: ' ' :: t) = none
          exact parseYInline_none_item t
        | cons l2 ls => rfl
      | none =>
        have hL : yItemLines (.cons x tl) 0
            = (indentS 0 ++ ['-']) :: (yBlockLines x 2 ++ yItemLines tl 0) := by
          rw [yItemLines, hx2]
        rw [hL]
        obtain ⟨l2, ls2, hls⟩ : ∃ l2 ls2, yBlockLines x 2 ++ yItemLines tl 0 = l2 :: ls2 := by
          cases hc : yBlockLines x 2 ++ yItemLines tl 0 with
          | nil => exact absurd (List.append_eq_nil.mp hc).1 (yBlock_ne_nil x hx2 2)
          | cons a b => exact ⟨a, b, rfl⟩
        rw [hls]
  | dict kvs =>
    cases kvs with
    | nil => exact absurd hx (by rw [yInlineOpt]; simp)
    | cons k v2 tl =>
      show (match yKvLines (.cons k v2 tl) 0 with
            | [l] => parseYInline l
            | _ => none) = (none : Option PyVal)
      cases hx2 : yInlineOpt v2 with
      | some t =>
        have hL : yKvLines (.cons k v2 tl) 0
            = (indentS 0 ++ quoteStr k ++ ':' :: ' ' :: t) :: yKvLines tl 0 := by
          rw [yKvLines, hx2]
        rw [hL]
        cases htl : yKvLines tl 0 with
        | nil =>
          dsimp only
          show parseYInline (quoteStr k ++ ':' :: ' ' :: t) = none
          exact parseYInline_none_kv k (' ' :: t)
        | cons l2 ls => rfl
      | none =>
        have hL : yKvLines (.cons k v2 tl) 0
            = (indentS 0 ++ quoteStr k ++ [':']) :: (yBlockLines v2 2 ++ yKvLines tl 0) := by
          rw [yKvLines, hx2]
        rw [hL]
        obtain ⟨l2, ls2, hls⟩ : ∃ l2 ls2, yBlockLines v2 2 ++ yKvLines tl 0 = l2 :: ls2 := by
          cases hc : yBlockLines v2 2 ++ yKvLines tl 0 with
          | nil => exact absurd (List.append_eq_nil.mp hc).1 (yBlock_ne_nil v2 hx2 2)
          | cons a b => exact ⟨a, b, rfl⟩
        rw [hls]

theorem yamlLoads_yamlDump (v : PyVal) : yamlLoads (yamlDump v) = some v := by
  cases hx : yInlineOpt v with
  | some t =>
    have hd : yamlDump v = unlines [t] := by rw [yamlDump, hx]
    rw [hd]
    unfold yamlLoads
    rw [prepLines_unlines [t] (by
      intro l hm
      rw [List.mem_singleton] at hm
      subst hm
      exact yInline_no_nl v _ hx)]
    dsimp only
    rw [parseYInline_yInline v t hx]
  | none =>
    have hd : yamlDump v = unlines (yBlockLines v 0) := by rw [yamlDump, hx]
    rw [hd]
    unfold yamlLoads
    rw [prepLines_unlines (yBlockLines v 0) (yBlock_no_nl v 0)]
    dsimp only
    rw [inline_match_none v hx]
    dsimp only
    have hb := parseYBlock_rt v hx ((unlines (yBlockLines v 0)).length + 1) 0 []
      (Nat.le_trans (yszV_le v 0 hx) (Nat.le_succ _)) (Or.inl rfl)
    rw [List.append_nil] at hb
    rw [hb]

end Sarvam

namespace Sarvam

/-- C5: For every key-value tree produced by the document export
(`result.document.export_to_dict()`), encoding it to indented JSON text
(`json.dumps(data, indent=2, default=str)`, flask_app.py line 108) and then
decoding that text reproduces the original tree up to structural equality;
the same round-trip holds for the block-style YAML encoding
(`yaml.safe_dump(data, default_flow_style=False)`, flask_app.py line 112). -/
theorem C5_round_trip (v : PyVal) :
    jsonLoads (jsonDumps v) = some v ∧ yamlLoads (yamlDump v) = some v :=
  ⟨jsonLoads_jsonDumps v, yamlLoads_yamlDump v⟩

end Sarvam
